import Mathlib

/-!
# Field-resolution engine of `configuration`

A shallow embedding of `configurator.go` and `defaultProvider.go`.

* Go types and values seen through `reflect` are finite trees (`GoType`, `Val`).
* Providers are external collaborators: a provider is a record of functions over an
  abstract world `σ` (environment, flag set, files, provider-internal state).
  `Provide` receives the field descriptor and the storage of that one field and
  returns the new storage; `Init` may read the target.
* Every call of `Init`, `Provide` and of the error handler is recorded in a trace.
* A Go panic and a handler that never returns (`log.Fatal`) abort the run; the
  outcome keeps the storage and the trace as they were at that moment.
-/

namespace Configuration

/-! ## Types and values as seen through `reflect` -/

/-- Kinds of the types that are neither pointers nor structs. -/
inductive Basic
  | Bool | Int | Int64 | Uint | Float64 | String | Slice | Map
  deriving DecidableEq, Repr

/-- The part of `reflect.Kind` the engine distinguishes. -/
inductive Kind
  | Basic (b : Basic)
  | Ptr
  | Struct
  deriving DecidableEq, Repr

mutual
/-- A Go type: `reflect.Type`. -/
inductive GoType
  | basic (b : Basic)
  | ptr (elem : GoType)
  | struct (fields : List StructField)
/-- A field descriptor: `reflect.StructField` (name, package path, type, tag).
The tag is kept as its key/value pairs. -/
inductive StructField
  | mk (Name : String) (PkgPath : String) (Typ : GoType) (Tag : List (String × String))
end

/-- A Go value: the storage behind a `reflect.Value`. -/
inductive Val
  | leaf (data : String)
  | nilPtr
  | ptrTo (v : Val)
  | struct (fields : List Val)

/-- The kind of a type: `Type.Kind()`. -/
def GoType.Kind : GoType → Kind
  | .basic b => .Basic b
  | .ptr _ => .Ptr
  | .struct _ => .Struct

/-- Field name: `StructField.Name`. -/
def StructField.Name : StructField → String
  | .mk n _ _ _ => n

/-- Package path, empty for exported fields: `StructField.PkgPath`. -/
def StructField.PkgPath : StructField → String
  | .mk _ p _ _ => p

/-- Declared type of the field: `StructField.Type`. -/
def StructField.Typ : StructField → GoType
  | .mk _ _ t _ => t

/-- Tag of the field: `StructField.Tag`. -/
def StructField.Tag : StructField → List (String × String)
  | .mk _ _ _ g => g

/-- Exportedness: `StructField.IsExported()`, that is `PkgPath == ""`. -/
def StructField.IsExported (f : StructField) : Bool :=
  f.PkgPath == ""

/-- Tag lookup: `StructTag.Get(key)`, the empty string when the key is absent. -/
def tagGet (tag : List (String × String)) (key : String) : String :=
  match tag.lookup key with
  | some v => v
  | none => ""

/-- Zero value of a basic kind, as text. -/
def zeroData : Basic → String
  | .Bool => "false"
  | .Int => "0"
  | .Int64 => "0"
  | .Uint => "0"
  | .Float64 => "0"
  | .String => ""
  | .Slice => "nil"
  | .Map => "nil"

mutual
/-- Zero value of a type: what `reflect.New(t)` points to. -/
def zero : GoType → Val
  | .basic b => .leaf (zeroData b)
  | .ptr _ => .nilPtr
  | .struct fs => .struct (zeroFields fs)
/-- Zero values of the fields of a struct type. -/
def zeroFields : List StructField → List Val
  | [] => []
  | f :: rest => zeroField f :: zeroFields rest
/-- Zero value of one field. -/
def zeroField : StructField → Val
  | .mk _ _ t _ => zero t
end

/-! ## Providers, run state, outcomes -/

/-- What a provider call leaves behind: the returned error (`none` is `nil`), the
storage it was handed and the world. -/
structure ProvideResult (σ : Type) where
  err : Option String
  val : Val
  world : σ

/-- What `Init` leaves behind. -/
structure InitResult (σ : Type) where
  err : Option String
  world : σ

/-- A dynamic value held in `any`: `none` is the nil interface. -/
abbrev Iface := Option (GoType × Val)

/-- The `Provider` interface. -/
structure Provider (σ : Type) where
  Name : String
  Init : Iface → σ → InitResult σ
  Provide : StructField → Val → σ → ProvideResult σ

/-- Observable calls made by the engine, with the error each call returned
(`none` is `nil`). -/
inductive Event
  | init (provider : String) (err : Option String)
  | provide (provider : String) (field : StructField) (err : Option String)
  | onError (field : StructField)

/-- Run state threaded through the engine. -/
structure St (σ : Type) where
  world : σ
  trace : List Event

/-- Why a run stopped without returning. -/
inductive Abort
  | panic (msg : String)
  | exit
  deriving DecidableEq, Repr

/-- Result of running a piece of the engine: it returned, or the run was aborted. -/
inductive Outcome (σ : Type) (α : Type)
  | ok (a : α) (s : St σ)
  | abort (why : Abort) (a : α) (s : St σ)

/-- The value carried by an outcome. -/
def Outcome.val {σ α : Type} : Outcome σ α → α
  | .ok a _ => a
  | .abort _ a _ => a

/-- The state carried by an outcome. -/
def Outcome.st {σ α : Type} : Outcome σ α → St σ
  | .ok _ s => s
  | .abort _ _ s => s

/-- Whether the piece of code returned. -/
def Outcome.returned {σ α : Type} : Outcome σ α → Bool
  | .ok _ _ => true
  | .abort _ _ _ => false

/-- Transport the carried value. -/
def Outcome.map {σ α β : Type} (f : α → β) : Outcome σ α → Outcome σ β
  | .ok a s => .ok (f a) s
  | .abort w a s => .abort w (f a) s

/-- Errors returned by `InitValues`. -/
inductive Err
  | ErrNotAPointer
  | ErrNoProviders
  | ErrProviderNameCollision
  | errorf (msg : String)
  deriving DecidableEq, Repr

/-- The `Configurator` struct. `loggerFn` and `loggingEnabled` are never read by
the code and are left out. `registeredTags` is the key set of the map.
`onErrorFn` returns `none` when the handler never returns. -/
structure Configurator (σ : Type) where
  configPtr : Iface
  providers : List (Provider σ)
  registeredTags : List String
  onErrorFn : Option String → σ → Option σ

/-- The constructor `New`: empty registry, handler `log.Fatal` on a non-nil error. -/
def New {σ : Type} (cfgPtr : Iface) (providers : List (Provider σ)) : Configurator σ :=
  { configPtr := cfgPtr
    providers := providers
    registeredTags := []
    onErrorFn := fun err w => if err.isSome then none else some w }

/-! ## The engine -/

/-- The loop of `applyProviders` (lines 108 to 112): `true` when a provider returned nil. -/
def provideLoop {σ : Type} (field : StructField) :
    List (Provider σ) → Val → St σ → Bool × Val × St σ
  | [], v, s => (false, v, s)
  | p :: ps, v, s =>
    let r := p.Provide field v s.world
    let s1 : St σ := ⟨r.world, s.trace ++ [Event.provide p.Name field r.err]⟩
    if r.err.isNone then (true, r.val, s1) else provideLoop field ps r.val s1

/-- Text of the error handed to the handler (line 114). -/
def cannotBeSet (field : StructField) : String :=
  "configurator: field [" ++ field.Name ++ "] with tags [" ++
    String.intercalate " " (field.Tag.map fun kv => kv.1 ++ ":\"" ++ kv.2 ++ "\"") ++
    "] cannot be set"

/-- The method `applyProviders`. -/
def applyProviders {σ : Type} (c : Configurator σ) (field : StructField) (v : Val) (s : St σ) :
    Outcome σ Val :=
  if !field.IsExported then .ok v s
  else
    match provideLoop field c.providers v s with
    | (true, v1, s1) => .ok v1 s1
    | (false, v1, s1) =>
      match c.onErrorFn (some (cannotBeSet field)) s1.world with
      | some w => .ok v1 ⟨w, s1.trace ++ [Event.onError field]⟩
      | none => .abort .exit v1 ⟨s1.world, s1.trace ++ [Event.onError field]⟩

/-- A pointer value from its pointee: `none` is the nil pointer. -/
def Val.ofPointee : Option Val → Val
  | none => .nilPtr
  | some v => .ptrTo v

/-- The pointee of a pointer value: `Value.Elem()`, `none` being the zero `Value`. -/
def Val.Elem : Val → Option Val
  | .ptrTo v => some v
  | _ => none

mutual
/-- The method `fillUp` called on a pointer of type `*t` whose pointee is `v` (`none`
for a nil pointer), as `InitValues` and the two recursive calls do: lines 77 to 80 have
taken `t` and `v` out of the pointer. The outcome carries the pointee as the walk left
it. -/
def fillUp {σ : Type} (c : Configurator σ) : GoType → Option Val → St σ → Outcome σ (Option Val)
  | .struct fs, v, s =>
    match v with
    | some (.struct vs) => (fillFields c fs vs s).map fun vs1 => some (.struct vs1)
    | _ =>
      match fs with
      | [] => .ok v s
      | _ :: _ => .abort (.panic "reflect: call of reflect.Value.Field on zero Value") v s
  | .basic _, v, s => .abort (.panic "reflect: NumField of non-struct type") v s
  | .ptr _, v, s => .abort (.panic "reflect: NumField of non-struct type") v s
/-- The loop over the fields (lines 82 to 100). -/
def fillFields {σ : Type} (c : Configurator σ) :
    List StructField → List Val → St σ → Outcome σ (List Val)
  | [], vs, s => .ok vs s
  | _ :: _, [], s => .abort (.panic "reflect: Field index out of range") [] s
  | f :: fs, v :: vs, s =>
    match fillField c f v s with
    | .ok v1 s1 => (fillFields c fs vs s1).map fun vs1 => v1 :: vs1
    | .abort w v1 s1 => .abort w (v1 :: vs) s1
/-- One iteration of the loop (lines 83 to 99) on field `f` with storage `v`. -/
def fillField {σ : Type} (c : Configurator σ) : StructField → Val → St σ → Outcome σ Val
  | .mk n p t g, v, s =>
    match t with
    | .struct fs =>
      -- tField.Type.Kind() == reflect.Struct: c.fillUp(vField.Addr().Interface())
      if p == "" then
        (fillUp c (.struct fs) (some v) s).map fun o => o.getD v
      else
        .abort (.panic
          "reflect.Value.Interface: cannot return value obtained from unexported field or method")
          v s
    | .ptr (.struct fs) =>
      -- vField.Set(reflect.New(tField.Type.Elem())); c.fillUp(vField.Interface())
      if p == "" then
        (fillUp c (.struct fs) (some (zero (.struct fs))) s).map Val.ofPointee
      else
        .abort (.panic "reflect: reflect.Value.Set using value obtained using unexported field")
          v s
    | _ => applyProviders c (.mk n p t g) v s
end

/-- The loop of `InitValues` (lines 56 to 65): the returned error, the registry and the
state it leaves. -/
def initLoop {σ : Type} (target : Iface) :
    List (Provider σ) → List String → St σ → Option Err × List String × St σ
  | [], reg, s => (none, reg, s)
  | p :: ps, reg, s =>
    if p.Name ∈ reg then (some .ErrProviderNameCollision, reg, s)
    else
      let r := p.Init target s.world
      let s1 : St σ := ⟨r.world, s.trace ++ [Event.init p.Name r.err]⟩
      match r.err with
      | some e =>
        (some (.errorf ("cannot init [" ++ p.Name ++ "] provider: " ++ e)), p.Name :: reg, s1)
      | none => initLoop target ps (p.Name :: reg) s1

/-- What `InitValues` leaves behind: the returned error (`none` is `nil`) and the
configurator with its registry and target as they are now. -/
structure Ret (σ : Type) where
  err : Option Err
  cfg : Configurator σ

/-- The method `InitValues`. -/
def InitValues {σ : Type} (c : Configurator σ) (s : St σ) : Outcome σ (Ret σ) :=
  match c.configPtr with
  | none =>
    -- reflect.TypeOf(nil) is the nil Type
    .abort (.panic "runtime error: invalid memory address or nil pointer dereference") ⟨none, c⟩ s
  | some (t, v) =>
    if t.Kind ≠ .Ptr then .ok ⟨some .ErrNotAPointer, c⟩ s
    else if c.providers.length = 0 then .ok ⟨some .ErrNoProviders, c⟩ s
    else
      match initLoop c.configPtr c.providers c.registeredTags s with
      | (some e, reg, s1) => .ok ⟨some e, { c with registeredTags := reg }⟩ s1
      | (none, reg, s1) =>
        match t with
        | .ptr elem =>
          (fillUp { c with registeredTags := reg } elem v.Elem s1).map fun o =>
            ⟨none, { c with registeredTags := reg, configPtr := some (t, Val.ofPointee o) }⟩
        -- not reached: the kind of `t` is `Ptr`
        | _ => .ok ⟨none, { c with registeredTags := reg }⟩ s1

/-! ## The default provider -/

/-- The constant `DefaultProviderName`. -/
def DefaultProviderName : String := "DefaultProvider"

/-- The default provider. `SetField` is not part of these sources and is a parameter:
it returns the error and the storage it leaves. Line 29, the early return on an empty
tag, is a `return` that names no value although the function returns `error`: the source
does not fix the error an empty tag yields, and it is the parameter `bare`. -/
def defaultProvider {σ : Type} (SetField : StructField → Val → String → Option String × Val)
    (bare : Option String) : Provider σ :=
  { Name := DefaultProviderName
    Init := fun _ w => ⟨none, w⟩
    Provide := fun field v w =>
      let valStr := tagGet field.Tag "default"
      if valStr.length = 0 then ⟨bare, v, w⟩
      else ⟨(SetField field v valStr).1, (SetField field v valStr).2, w⟩ }

/-! ## The field setter -/

/-- Modelled from the spec: the kinds `SetField` supports (spec 4.3), which are boolean,
signed and unsigned integers, floating point and string. -/
def supportedKind : Basic → Bool
  | .Bool => true
  | .Int => true
  | .Int64 => true
  | .Uint => true
  | .Float64 => true
  | .String => true
  | .Slice => false
  | .Map => false

/-- Modelled from the spec: the conversion of a text to a value of the declared type
(spec 4.3), defined for a supported kind, or one level of pointer to a supported kind,
which is allocated and then set.
`parse` is the text conversion of the standard library for each kind, `none` when the
text cannot be parsed. There is no conversion to any other type. -/
def convert (parse : Basic → String → Option String) : GoType → String → Option Val
  | .basic b, text => if supportedKind b then (parse b text).map Val.leaf else none
  | .ptr (.basic b), text =>
    if supportedKind b then (parse b text).map fun d => Val.ptrTo (.leaf d) else none
  | _, _ => none

/-- Modelled from the spec: the function `SetField(field, v, valStr)` of this repository
is not among the sources. Spec 4.3: it converts the raw text into the field's declared
type and assigns it; a conversion failure and an unsupported kind are hard failures,
reported as an error, and never turned into a zero value: the storage stays as it was. -/
def SetField (parse : Basic → String → Option String) (field : StructField) (v : Val)
    (text : String) : Option String × Val :=
  match convert parse field.Typ text with
  | some x => (none, x)
  | none => (some ("cannot set field [" ++ field.Name ++ "] from value [" ++ text ++ "]"), v)

/-! ## Trace vocabulary -/

/-- Events of the providers `ps` each returning its error of `errs` on `field`. -/
def declined {σ : Type} (field : StructField) (ps : List (Provider σ)) (errs : List String) :
    List Event :=
  List.zipWith (fun p e => Event.provide p.Name field (some e)) ps errs

/-- Whether an event is a call of `Init`. -/
def Event.isInit : Event → Bool
  | .init _ _ => true
  | _ => false

/-- Whether an event is a call of `Provide`. -/
def Event.isProvide : Event → Bool
  | .provide _ _ _ => true
  | _ => false

/-- The run went from trace `before` to trace `after` by calls on fields only
(`Provide` and the error handler). -/
def FieldEventsOnly (before after : List Event) : Prop :=
  ∃ evs, after = before ++ evs ∧ ∀ e ∈ evs, e.isInit = false

/-- The successful `Init` calls of the providers `ps`, in order. -/
def initCalls {σ : Type} (ps : List (Provider σ)) : List Event :=
  ps.map fun p => Event.init p.Name none

/-- Every `Init` of `ps` succeeds when the providers are initialised in order from
world `w`. -/
def InitsSucceed {σ : Type} (target : Iface) : List (Provider σ) → σ → Prop
  | [], _ => True
  | p :: ps, w => (p.Init target w).err = none ∧ InitsSucceed target ps (p.Init target w).world

/-- The text `msg` contains the text `name`. -/
def Mentions (msg name : String) : Prop :=
  name.data <:+: msg.data

/-! ## Consulting providers in order -/

/-- Every provider of `ps` returns an error on `field` when the providers are consulted
in order from storage `v` and world `w`, each one on the storage and the world the one
before it left. -/
def AllDecline {σ : Type} (field : StructField) : List (Provider σ) → Val → σ → Prop
  | [], _, _ => True
  | p :: ps, v, w =>
    (p.Provide field v w).err ≠ none ∧
      AllDecline field ps (p.Provide field v w).val (p.Provide field v w).world

/-- Storage after the providers `ps` have been consulted in order on `field`. -/
def storageAfter {σ : Type} (field : StructField) : List (Provider σ) → Val → σ → Val
  | [], v, _ => v
  | p :: ps, v, w => storageAfter field ps (p.Provide field v w).val (p.Provide field v w).world

/-- World after the providers `ps` have been consulted in order on `field`. -/
def worldAfter {σ : Type} (field : StructField) : List (Provider σ) → Val → σ → σ
  | [], _, w => w
  | p :: ps, v, w => worldAfter field ps (p.Provide field v w).val (p.Provide field v w).world

/-- The `Provide` calls made when the providers `ps` are consulted in order on `field`,
each with the error it returned. -/
def provideCalls {σ : Type} (field : StructField) : List (Provider σ) → Val → σ → List Event
  | [], _, _ => []
  | p :: ps, v, w =>
    Event.provide p.Name field (p.Provide field v w).err ::
      provideCalls field ps (p.Provide field v w).val (p.Provide field v w).world

/-- World after the providers `ps` have been initialised in order from world `w`, each
`Init` called once on the world the one before it left. -/
def initWorld {σ : Type} (target : Iface) : List (Provider σ) → σ → σ
  | [], w => w
  | p :: ps, w => initWorld target ps (p.Init target w).world

/-- Storage of the leaf `field` after the chain `ps` has been consulted on it from
storage `v` and world `w`: the providers are consulted in order, each on the storage and
the world the one before it left, up to and including the first that returns nil. -/
def chainStorage {σ : Type} (field : StructField) : List (Provider σ) → Val → σ → Val
  | [], v, _ => v
  | p :: ps, v, w =>
    if (p.Provide field v w).err.isNone then (p.Provide field v w).val
    else chainStorage field ps (p.Provide field v w).val (p.Provide field v w).world

/-! ## What a walk leaves in the storage -/

mutual
/-- Typing of the storage of the fields `fs`. -/
def hasTypeFields : List StructField → List Val → Bool
  | [], [] => true
  | f :: fs, v :: vs => hasTypeField f v && hasTypeFields fs vs
  | _, _ => false
/-- Typing of the storage of one field. -/
def hasTypeField : StructField → Val → Bool
  | .mk _ _ t _, v => hasType t v
/-- Typing of a value: a struct value has one well-typed value per field, a pointer is
nil or points to a well-typed value, anything else is a leaf. -/
def hasType : GoType → Val → Bool
  | .basic _, .leaf _ => true
  | .ptr _, .nilPtr => true
  | .ptr t, .ptrTo v => hasType t v
  | .struct fs, .struct vs => hasTypeFields fs vs
  | _, _ => false
end

mutual
/-- The fields `fs` can be walked: every struct-typed and pointer-to-struct field, at any
depth, is exported. -/
def walkableFields : List StructField → Bool
  | [] => true
  | f :: fs => walkableField f && walkableFields fs
/-- One field can be walked. -/
def walkableField : StructField → Bool
  | .mk _ p (.struct fs) _ => p == "" && walkableFields fs
  | .mk _ p (.ptr (.struct fs)) _ => p == "" && walkableFields fs
  | _ => true
end

mutual
/-- The leaf fields below the fields `fs`: the depth-first flattening in declaration
order, struct-typed and pointer-to-struct fields expanded in place. -/
def leafFields : List StructField → List StructField
  | [] => []
  | f :: fs => leafFieldsOf f ++ leafFields fs
/-- The leaf fields below one field. -/
def leafFieldsOf : StructField → List StructField
  | .mk _ _ (.struct fs) _ => leafFields fs
  | .mk _ _ (.ptr (.struct fs)) _ => leafFields fs
  | .mk n p t g => [.mk n p t g]
end

/-- The fields the error handler was invoked on, in order. -/
def errorFields (tr : List Event) : List StructField :=
  tr.filterMap fun e =>
    match e with
    | .onError f => some f
    | _ => none

mutual
/-- Relation between the storage `vs` of the fields `fs` before a walk with the providers
`ps` and the storage after it. -/
def WalkedFields {σ : Type} (ps : List (Provider σ)) :
    List StructField → List Val → List Val → Prop
  | [], vs, vs1 => vs1 = vs
  | f :: fs, v :: vs, v1 :: vs1 => WalkedField ps f v v1 ∧ WalkedFields ps fs vs vs1
  | _ :: _, _, _ => False
/-- One field after a walk. An embedded struct is walked in place. A pointer-to-struct
field points to an instance that was walked starting from the zero value of the pointee
type, whatever the field held before. A non-exported leaf holds what it held before. An
exported leaf holds what the chain, consulted on the storage the leaf held before, has
left in it. And a leaf to which no provider of the chain writes, when handed the storage
the leaf held before, holds what it held before: its zero value, inside a
pointer-to-struct field. -/
def WalkedField {σ : Type} (ps : List (Provider σ)) : StructField → Val → Val → Prop
  | .mk _ _ (.struct fs) _, v, v1 =>
    match v, v1 with
    | .struct vs, .struct vs1 => WalkedFields ps fs vs vs1
    | _, _ => v1 = v
  | .mk _ _ (.ptr (.struct fs)) _, _, v1 =>
    match v1 with
    | .ptrTo (.struct vs1) => WalkedFields ps fs (zeroFields fs) vs1
    | _ => False
  | .mk n p t g, v, v1 =>
    (p ≠ "" → v1 = v) ∧ (p = "" → ∃ w, v1 = chainStorage (.mk n p t g) ps v w) ∧
      ((∀ q ∈ ps, ∀ w, (q.Provide (.mk n p t g) v w).val = v) → v1 = v)
end

/-! ## Providers that claim fixed sets of fields -/

/-- Provider `p` claims exactly the fields of `S`: on a field of `S` its `Provide` returns
nil, on any other field it returns an error and leaves the storage as it was. -/
def ClaimsExactly {σ : Type} (p : Provider σ) (S : StructField → Bool) : Prop :=
  ∀ f v w, ((p.Provide f v w).err = none ↔ S f = true) ∧
    (S f = false → (p.Provide f v w).val = v)

/-- Field `f` is exported and in the set of no provider of `ps`. -/
def unclaimed {σ : Type} (ps : List (Provider σ)) (S : Provider σ → StructField → Bool)
    (f : StructField) : Bool :=
  f.IsExported && ps.all fun p => !S p f

/-- A leaf `f` after a pass in which provider `q` claims exactly `S q`; `v` is the storage
the leaf held when the walk reached it. A non-exported leaf holds `v`. An exported leaf
claimed by `q` holds what `q` produced for it: the storage that the call of `Provide` of
`q` on `f` and `v`, which returned nil, has left. An exported leaf nobody claims holds
`v`. -/
def SettledLeaf {σ : Type} (ps : List (Provider σ)) (S : Provider σ → StructField → Bool)
    (f : StructField) (v v1 : Val) : Prop :=
  (f.IsExported = false → v1 = v) ∧
  (f.IsExported = true → ∀ q ∈ ps, S q f = true →
    ∃ w, (q.Provide f v w).err = none ∧ v1 = (q.Provide f v w).val) ∧
  (unclaimed ps S f = true → v1 = v)

mutual
/-- Storage `vs` of the fields `fs` before, and `vs1` after, a pass in which provider `q`
claims exactly `S q`. -/
def SettledFields {σ : Type} (ps : List (Provider σ)) (S : Provider σ → StructField → Bool) :
    List StructField → List Val → List Val → Prop
  | [], vs, vs1 => vs1 = vs
  | f :: fs, v :: vs, v1 :: vs1 => SettledField ps S f v v1 ∧ SettledFields ps S fs vs vs1
  | _ :: _, _, _ => False
/-- One field after such a pass. An embedded struct is settled in place. A
pointer-to-struct field points to an instance settled from the zero value of the pointee
type. A leaf is settled as `SettledLeaf` says. -/
def SettledField {σ : Type} (ps : List (Provider σ)) (S : Provider σ → StructField → Bool) :
    StructField → Val → Val → Prop
  | .mk _ _ (.struct fs) _, v, v1 =>
    match v, v1 with
    | .struct vs, .struct vs1 => SettledFields ps S fs vs vs1
    | _, _ => False
  | .mk _ _ (.ptr (.struct fs)) _, _, v1 =>
    match v1 with
    | .ptrTo (.struct vs1) => SettledFields ps S fs (zeroFields fs) vs1
    | _ => False
  | .mk n p t g, v, v1 => SettledLeaf ps S (.mk n p t g) v v1
end

/-! ## Offering leaves to the chain -/

/-- The eligible leaves below the fields `fs`: the exported leaf fields, in traversal
order. -/
def exportedLeaves (fs : List StructField) : List StructField :=
  (leafFields fs).filter fun f => f.IsExported

/-- The eligible leaves below one field. -/
def exportedLeavesOf (f : StructField) : List StructField :=
  (leafFieldsOf f).filter fun g => g.IsExported

/-- The eligible leaves of a target of type `*t`. -/
def exportedLeavesOfType : GoType → List StructField
  | .struct fs => exportedLeaves fs
  | _ => []

/-- The events of offering the leaf `f` once to the chain `ps`: the providers are
consulted in chain order; either the providers before some `p` returned errors and `p`
returned nil, which ends the block, or all of them returned errors and the block ends
with the error handler. -/
def IsChainBlock {σ : Type} (ps : List (Provider σ)) (f : StructField) (block : List Event) :
    Prop :=
  (∃ pre p post errs, ps = pre ++ p :: post ∧ errs.length = pre.length ∧
    block = declined f pre errs ++ [Event.provide p.Name f none]) ∨
  (∃ errs, errs.length = ps.length ∧ block = declined f ps errs ++ [Event.onError f])

/-- The events `evs` are the offering of the leaves `L`, one after the other and each
once, to the chain `ps`. -/
def OffersInOrder {σ : Type} (ps : List (Provider σ)) (L : List StructField)
    (evs : List Event) : Prop :=
  ∃ blocks, List.Forall₂ (IsChainBlock ps) L blocks ∧ evs = blocks.flatten

/-- The field an event is about. -/
def Event.field : Event → Option StructField
  | .init _ _ => none
  | .provide _ f _ => some f
  | .onError f => some f

/-- Number of `Provide` calls in a trace. -/
def provideCount (tr : List Event) : Nat :=
  (tr.filter Event.isProvide).length

/-- What a piece of the walk over the eligible leaves `all` adds to the trace: the
offering, in order, of an initial segment of `all`, which is the whole of `all` when the
piece returns. -/
def WalkOffers {σ : Type} (ps : List (Provider σ)) (all : List StructField) {α : Type}
    (s : St σ)
    (o : Outcome σ α) : Prop :=
  ∃ L evs, o.st.trace = s.trace ++ evs ∧ OffersInOrder ps L evs ∧ L <+: all ∧
    (o.returned = true → L = all)

/-! ## Non-exported leaves -/

mutual
/-- Storage `vs` of the fields `fs` before a pass that returned nil and `vs1` after it, as
far as non-exported leaves are concerned. -/
def UnexportedKeptFields : List StructField → List Val → List Val → Prop
  | [], vs, vs1 => vs1 = vs
  | f :: fs, v :: vs, v1 :: vs1 => UnexportedKeptField f v v1 ∧ UnexportedKeptFields fs vs vs1
  | _ :: _, _, _ => False
/-- One field before and after a pass that returned nil. A non-exported leaf holds what
it held before; nothing is said of an exported leaf. An embedded struct is compared field
by field. A pointer-to-struct field points to an instance whose fields are compared with
the zero value of the pointee type, whatever the field held before: a non-exported leaf
inside it holds its zero value. -/
def UnexportedKeptField : StructField → Val → Val → Prop
  | .mk _ _ (.struct fs) _, v, v1 =>
    match v, v1 with
    | .struct vs, .struct vs1 => UnexportedKeptFields fs vs vs1
    | _, _ => False
  | .mk _ _ (.ptr (.struct fs)) _, _, v1 =>
    match v1 with
    | .ptrTo (.struct vs1) => UnexportedKeptFields fs (zeroFields fs) vs1
    | _ => False
  | .mk _ p _ _, v, v1 => p ≠ "" → v1 = v
end

/-- Why the run stopped, if it did not return. -/
def Outcome.aborted {σ α : Type} : Outcome σ α → Option Abort
  | .ok _ _ => none
  | .abort w _ _ => some w

/-! ## Sample providers and targets -/

/-- A provider that finds a value for every field and cannot convert it. -/
def strictProvider : Provider Unit :=
  { Name := "Strict"
    Init := fun _ w => ⟨none, w⟩
    Provide := fun _ v w => ⟨some "strconv.Atoi: parsing \"notanumber\": invalid syntax", v, w⟩ }

/-- A provider that has no value for any field. -/
def silentProvider : Provider Unit :=
  { Name := "Silent"
    Init := fun _ w => ⟨none, w⟩
    Provide := fun _ v w => ⟨some "empty value", v, w⟩ }

/-- A provider that sets every field to the same text. -/
def constProvider (name data : String) : Provider Unit :=
  { Name := name
    Init := fun _ w => ⟨none, w⟩
    Provide := fun _ _ w => ⟨none, .leaf data, w⟩ }

/-- A provider whose `Init` fails. -/
def brokenProvider (name : String) : Provider Unit :=
  { Name := name
    Init := fun _ w => ⟨some "no such file", w⟩
    Provide := fun _ v w => ⟨some "empty value", v, w⟩ }

/-- A setter that accepts every text as it is. -/
def plainSetField : StructField → Val → String → Option String × Val :=
  fun _ _ str => (none, .leaf str)

/-- A handler that returns. -/
def lenient : Option String → Unit → Option Unit :=
  fun _ w => some w

/-- Field `Port int` with an unparsable default. -/
def portField : StructField := .mk "Port" "" (.basic .Int) [("default", "notanumber")]

/-- Field `Host string` with no default tag. -/
def hostField : StructField := .mk "Host" "" (.basic .String) [("env", "HOST")]

/-- The empty run state. -/
def st0 : St Unit := ⟨(), []⟩

/-- Target `*struct { Host string }` with an empty `Host`. -/
def hostTarget : Iface :=
  some (.ptr (.struct [hostField]), .ptrTo (.struct [.leaf ""]))

/-- Target `*int`. -/
def intTarget : Iface :=
  some (.ptr (.basic .Int), .ptrTo (.leaf "5"))

/-- Target `struct { Host string }` passed by value. -/
def byValueTarget : Iface :=
  some (.struct [hostField], .struct [.leaf ""])

/-- A provider that sets the fields named `field` to `data` and has no value for any
other field. -/
def namedProvider (name field data : String) : Provider Unit :=
  { Name := name
    Init := fun _ w => ⟨none, w⟩
    Provide := fun f v w =>
      if f.Name == field then ⟨none, .leaf data, w⟩ else ⟨some "empty value", v, w⟩ }

/-- Field `Name string` of the nested struct. -/
def nameField : StructField := .mk "Name" "" (.basic .String) []

/-- Field `DB *struct { Name string }`. -/
def dbField : StructField := .mk "DB" "" (.ptr (.struct [nameField])) []

/-- Target `*struct { Host string; DB *struct { Name string } }` whose `DB` already points
to an instance with `Name` set to `prod`. -/
def presetTarget : Iface :=
  some (.ptr (.struct [hostField, dbField]),
    .ptrTo (.struct [.leaf "", .ptrTo (.struct [.leaf "prod"])]))

/-- The same target with a nil `DB`. -/
def freshTarget : Iface :=
  some (.ptr (.struct [hostField, dbField]), .ptrTo (.struct [.leaf "", .nilPtr]))

/-- Target `*struct { DB *struct { Name string } }` whose `DB` points to an instance with
`Name` set to `prod`. -/
def dbTarget : Iface :=
  some (.ptr (.struct [dbField]), .ptrTo (.struct [.ptrTo (.struct [.leaf "prod"])]))

/-- A configurator whose handler returns. -/
def lenientConfigurator (target : Iface) (ps : List (Provider Unit)) : Configurator Unit :=
  { New target ps with onErrorFn := lenient }

/-- The claim sets of the sample providers: `Env` claims `Host`, nobody else claims. -/
def sampleClaims (p : Provider Unit) (f : StructField) : Bool :=
  p.Name == "Env" && f.Name == "Host"

/-- Field `secret string`, not exported. -/
def secretField : StructField := .mk "secret" "main" (.basic .String) []

/-- Field `Vault *struct { secret string }`. -/
def vaultField : StructField := .mk "Vault" "" (.ptr (.struct [secretField])) []

/-- Target `*struct { Vault *struct { secret string } }` whose `Vault` points to an
instance with `secret` set to `s3cr3t`. -/
def vaultTarget : Iface :=
  some (.ptr (.struct [vaultField]), .ptrTo (.struct [.ptrTo (.struct [.leaf "s3cr3t"])]))

/-- Field `inner struct { Name string }`, a struct-typed field that is not exported. -/
def innerField : StructField := .mk "inner" "main" (.struct [nameField]) []

/-- Field `link *struct { Name string }`, a pointer-to-struct field that is not exported. -/
def linkField : StructField := .mk "link" "main" (.ptr (.struct [nameField])) []

/-- Target `*struct { inner struct { Name string }; Host string }`. -/
def innerTarget : Iface :=
  some (.ptr (.struct [innerField, hostField]),
    .ptrTo (.struct [.struct [.leaf ""], .leaf ""]))

/-- Target `*struct { link *struct { Name string }; Host string }` with a nil `link`. -/
def linkTarget : Iface :=
  some (.ptr (.struct [linkField, hostField]), .ptrTo (.struct [.nilPtr, .leaf ""]))

/-- Target `*struct { Host string; inner struct { Name string } }`. -/
def hostInnerTarget : Iface :=
  some (.ptr (.struct [hostField, innerField]),
    .ptrTo (.struct [.leaf "", .struct [.leaf ""]]))

/-- A text conversion: digits for the numeric kinds, `true` and `false` for booleans, any
text for strings. -/
def decimalParse : Basic → String → Option String
  | .String, text => some text
  | .Bool, text => if text = "true" ∨ text = "false" then some text else none
  | .Slice, _ => none
  | .Map, _ => none
  | _, text => if text.data ≠ [] ∧ text.data.all Char.isDigit then some text else none

/-- Field `Port int` with the default `8080`. -/
def portField8080 : StructField := .mk "Port" "" (.basic .Int) [("default", "8080")]

/-- A provider over a world that is a log: its `Init` appends the provider's name to the
log, and it has no value for any field. -/
def loggingProvider (name : String) : Provider (List String) :=
  { Name := name
    Init := fun _ w => ⟨none, w ++ [name]⟩
    Provide := fun _ v w => ⟨some "empty value", v, w⟩ }

/-- A configurator over the log world whose handler returns. -/
def loggingConfigurator (target : Iface) (ps : List (Provider (List String))) :
    Configurator (List String) :=
  { New target ps with onErrorFn := fun _ w => some w }

/-! ## The provider chain on one field -/

section Chain
variable {σ : Type}

theorem provideLoop_shape (field : StructField) (ps : List (Provider σ)) :
    ∀ (v : Val) (s : St σ),
      (∃ pre p post errs v0 w0, ps = pre ++ p :: post ∧ errs.length = pre.length ∧
        (p.Provide field v0 w0).err = none ∧
        provideLoop field ps v s = (true, (p.Provide field v0 w0).val,
          ⟨(p.Provide field v0 w0).world,
            s.trace ++ declined field pre errs ++ [Event.provide p.Name field none]⟩)) ∨
      (∃ errs v1 w1, errs.length = ps.length ∧
        provideLoop field ps v s = (false, v1, ⟨w1, s.trace ++ declined field ps errs⟩)) := by
  induction ps with
  | nil =>
    intro v s
    right
    exact ⟨[], v, s.world, rfl, by simp [provideLoop, declined]⟩
  | cons p ps ih =>
    intro v s
    cases h : (p.Provide field v s.world).err with
    | none =>
      left
      refine ⟨[], p, ps, [], v, s.world, rfl, rfl, h, ?_⟩
      simp [provideLoop, h, declined]
    | some e =>
      rcases ih (p.Provide field v s.world).val
          ⟨(p.Provide field v s.world).world, s.trace ++ [Event.provide p.Name field (some e)]⟩ with
        ⟨pre, q, post, errs, v0, w0, hps, hlen, herr, hrun⟩ | ⟨errs, v1, w1, hlen, hrun⟩
      · left
        refine ⟨p :: pre, q, post, e :: errs, v0, w0, by simp [hps], by simp [hlen], herr, ?_⟩
        simp [provideLoop, h, hrun, declined]
      · right
        refine ⟨e :: errs, v1, w1, by simp [hlen], ?_⟩
        simp [provideLoop, h, hrun, declined]

theorem provideLoop_append (field : StructField) (pre rest : List (Provider σ)) :
    ∀ (v : Val) (s : St σ) (v1 : Val) (s1 : St σ),
      provideLoop field pre v s = (false, v1, s1) →
      provideLoop field (pre ++ rest) v s = provideLoop field rest v1 s1 := by
  induction pre with
  | nil =>
    intro v s v1 s1 h
    simp [provideLoop] at h
    obtain ⟨rfl, rfl⟩ := h
    rfl
  | cons p pre ih =>
    intro v s v1 s1 h
    cases hp : (p.Provide field v s.world).err with
    | none => simp [provideLoop, hp] at h
    | some e =>
      simp only [provideLoop, hp, Option.isNone_some, List.cons_append] at h ⊢
      exact ih _ _ _ _ h

/-- A run of declining providers through the loop of `applyProviders`. -/
theorem provideLoop_allDecline (field : StructField) (ps : List (Provider σ)) :
    ∀ (v : Val) (s : St σ), AllDecline field ps v s.world →
      provideLoop field ps v s =
        (false, storageAfter field ps v s.world,
          ⟨worldAfter field ps v s.world, s.trace ++ provideCalls field ps v s.world⟩) := by
  induction ps with
  | nil => intro v s _; simp [provideLoop, storageAfter, worldAfter, provideCalls]
  | cons p ps ih =>
    intro v s h
    obtain ⟨hp, hrest⟩ := h
    obtain ⟨e, he⟩ := Option.ne_none_iff_exists'.1 hp
    simp only [provideLoop, he, Option.isNone_some, storageAfter, worldAfter, provideCalls]
    rw [ih (p.Provide field v s.world).val
      ⟨(p.Provide field v s.world).world, s.trace ++ [Event.provide p.Name field (some e)]⟩
      hrest]
    simp

/-- Claim C1. Let `p` be the first provider of the chain that returns nil on the exported
leaf `field`: the providers `pre` declared before it, consulted in declared order, each on
the storage and the world the one before it left, all return errors, and `p`, handed the
storage and the world they left, returns nil. Then `applyProviders` returns with the
storage and the world of that call of `p`; it has called `Provide` on the providers of
`pre` in declared order and then on `p`, whose call is the last event: no provider
declared after `p` is consulted and the error handler is not invoked. -/
theorem first_success_wins (c : Configurator σ) (field : StructField) (v : Val) (s : St σ)
    (pre post : List (Provider σ)) (p : Provider σ)
    (hc : c.providers = pre ++ p :: post) (hexp : field.IsExported = true)
    (hpre : AllDecline field pre v s.world)
    (hp : (p.Provide field (storageAfter field pre v s.world)
      (worldAfter field pre v s.world)).err = none) :
    applyProviders c field v s =
      .ok (p.Provide field (storageAfter field pre v s.world)
          (worldAfter field pre v s.world)).val
        ⟨(p.Provide field (storageAfter field pre v s.world)
            (worldAfter field pre v s.world)).world,
          s.trace ++ provideCalls field pre v s.world ++ [Event.provide p.Name field none]⟩ := by
  have hrun : provideLoop field c.providers v s =
      (true, (p.Provide field (storageAfter field pre v s.world)
          (worldAfter field pre v s.world)).val,
        ⟨(p.Provide field (storageAfter field pre v s.world)
            (worldAfter field pre v s.world)).world,
          s.trace ++ provideCalls field pre v s.world ++
            [Event.provide p.Name field none]⟩) := by
    rw [hc, provideLoop_append field pre (p :: post) v s _ _
      (provideLoop_allDecline field pre v s hpre)]
    simp [provideLoop, hp]
  simp [applyProviders, hexp, hrun]

/-- Witness of `first_success_wins`: `Silent` has no value for `Host`, `Env` and `Late`
both have one; `Env`, declared first, wins and `Late` is not consulted. -/
theorem first_success_wins_witness :
    applyProviders (New none [silentProvider, constProvider "Env" "example.com",
        constProvider "Late" "localhost"]) hostField (.leaf "") st0 =
      .ok (.leaf "example.com")
        ⟨(), [Event.provide "Silent" hostField (some "empty value"),
              Event.provide "Env" hostField none]⟩ :=
  first_success_wins (New none [silentProvider, constProvider "Env" "example.com",
      constProvider "Late" "localhost"]) hostField (.leaf "") st0 [silentProvider]
    [constProvider "Late" "localhost"] (constProvider "Env" "example.com") rfl rfl
    ⟨by simp [silentProvider], trivial⟩ rfl

end Chain

/-! ## Errors returned by a provider -/

section ProviderErrors
variable {σ : Type}

/-- Claim C3, refuted as stated. `Strict` finds a value for `Port` and cannot convert it;
`Late`, declared after it, is consulted all the same and sets the field, and the handler
is not invoked. -/
theorem hard_failure_not_terminal :
    applyProviders (New none [strictProvider, constProvider "Late" "8080"]) portField
        (.leaf "0") st0 =
      .ok (.leaf "8080")
        ⟨(), [Event.provide "Strict" portField
                (some "strconv.Atoi: parsing \"notanumber\": invalid syntax"),
              Event.provide "Late" portField none]⟩ := by
  rfl

/-- Claim C3, amended. Whatever error a provider returns on an exported leaf field, a hard
failure included, the loop goes on with the providers declared after it, on the storage
that provider left. A later provider that returns nil sets the field; the handler is
invoked only when all the remaining providers returned an error as well. -/
theorem any_error_falls_through (c : Configurator σ) (field : StructField) (v : Val) (s : St σ)
    (pre post : List (Provider σ)) (p : Provider σ) (v1 : Val) (s1 : St σ) (e : String)
    (hc : c.providers = pre ++ p :: post) (hexp : field.IsExported = true)
    (hpre : provideLoop field pre v s = (false, v1, s1))
    (hp : (p.Provide field v1 s1.world).err = some e) :
    provideLoop field c.providers v s =
        provideLoop field post (p.Provide field v1 s1.world).val
          ⟨(p.Provide field v1 s1.world).world,
            s1.trace ++ [Event.provide p.Name field (some e)]⟩ ∧
    (∀ v3 s3, provideLoop field post (p.Provide field v1 s1.world).val
          ⟨(p.Provide field v1 s1.world).world,
            s1.trace ++ [Event.provide p.Name field (some e)]⟩ = (true, v3, s3) →
        applyProviders c field v s = .ok v3 s3) ∧
    (∀ v3 s3, provideLoop field post (p.Provide field v1 s1.world).val
          ⟨(p.Provide field v1 s1.world).world,
            s1.trace ++ [Event.provide p.Name field (some e)]⟩ = (false, v3, s3) →
        (applyProviders c field v s).st.trace = s3.trace ++ [Event.onError field]) := by
  have hrun : provideLoop field c.providers v s =
      provideLoop field post (p.Provide field v1 s1.world).val
        ⟨(p.Provide field v1 s1.world).world,
          s1.trace ++ [Event.provide p.Name field (some e)]⟩ := by
    rw [hc, provideLoop_append field pre (p :: post) v s v1 s1 hpre]
    simp [provideLoop, hp]
  refine ⟨hrun, ?_, ?_⟩
  · intro v3 s3 h
    simp [applyProviders, hexp, hrun, h]
  · intro v3 s3 h
    simp only [applyProviders, hexp, hrun, h]
    cases c.onErrorFn (some (cannotBeSet field)) s3.world <;> simp [Outcome.st]

/-- Witness of `any_error_falls_through`: `Strict` then `Late` on `Port`. -/
theorem any_error_falls_through_witness :
    applyProviders (New none [strictProvider, constProvider "Late" "8080"]) portField
        (.leaf "0") st0 =
      .ok (.leaf "8080")
        ⟨(), [Event.provide "Strict" portField
                (some "strconv.Atoi: parsing \"notanumber\": invalid syntax"),
              Event.provide "Late" portField none]⟩ :=
  (any_error_falls_through (New none [strictProvider, constProvider "Late" "8080"]) portField
      (.leaf "0") st0 [] [constProvider "Late" "8080"] strictProvider (.leaf "0") st0
      "strconv.Atoi: parsing \"notanumber\": invalid syntax" rfl rfl rfl rfl).2.1
    (.leaf "8080") _ rfl

/-- Claim C4, evaluated where it fails. `Host` has no `default` tag. The default provider
leaves its storage and the world as they are and returns whatever the return of line 29
yields: the source names no error there. Nothing in the code makes it the non-nil error
of the claim; and if it is nil, `Late`, declared after the default provider, is not
consulted and the handler is not invoked. -/
theorem default_provider_untagged_field_error_unfixed :
    (∀ bare : Option String,
      (defaultProvider plainSetField bare : Provider Unit).Provide hostField (.leaf "") () =
        ⟨bare, .leaf "", ()⟩) ∧
    applyProviders
        (New none [defaultProvider plainSetField none, constProvider "Late" "example.com"])
        hostField (.leaf "") st0 =
      .ok (.leaf "") ⟨(), [Event.provide "DefaultProvider" hostField none]⟩ := by
  exact ⟨fun _ => rfl, rfl⟩

end ProviderErrors

/-! ## Events added by the walk -/

section Walk
variable {σ : Type}

theorem FieldEventsOnly.refl (l : List Event) : FieldEventsOnly l l :=
  ⟨[], by simp, by simp⟩

theorem FieldEventsOnly.trans {a b c : List Event} (h1 : FieldEventsOnly a b)
    (h2 : FieldEventsOnly b c) : FieldEventsOnly a c := by
  obtain ⟨e1, rfl, h1⟩ := h1
  obtain ⟨e2, rfl, h2⟩ := h2
  refine ⟨e1 ++ e2, by simp, ?_⟩
  intro e he
  rcases List.mem_append.1 he with h | h
  · exact h1 e h
  · exact h2 e h

theorem provideLoop_fieldEvents (field : StructField) (ps : List (Provider σ)) :
    ∀ (v : Val) (s : St σ), FieldEventsOnly s.trace (provideLoop field ps v s).2.2.trace := by
  induction ps with
  | nil => intro v s; exact FieldEventsOnly.refl _
  | cons p ps ih =>
    intro v s
    have hstep : FieldEventsOnly s.trace
        (s.trace ++ [Event.provide p.Name field (p.Provide field v s.world).err]) :=
      ⟨_, rfl, by simp [Event.isInit]⟩
    cases h : (p.Provide field v s.world).err with
    | none => simpa [provideLoop, h] using hstep
    | some e =>
      simp only [provideLoop, h, Option.isNone_some]
      rw [h] at hstep
      exact hstep.trans (ih _ _)

theorem applyProviders_fieldEvents (c : Configurator σ) (field : StructField) (v : Val)
    (s : St σ) : FieldEventsOnly s.trace (applyProviders c field v s).st.trace := by
  unfold applyProviders
  cases hexp : field.IsExported with
  | false => simpa [Outcome.st] using FieldEventsOnly.refl s.trace
  | true =>
    have h := provideLoop_fieldEvents field c.providers v s
    rcases hrun : provideLoop field c.providers v s with ⟨b, v1, s1⟩
    rw [hrun] at h
    simp only at h
    cases b with
    | true => simpa [Outcome.st] using h
    | false =>
      have h2 : FieldEventsOnly s1.trace (s1.trace ++ [Event.onError field]) :=
        ⟨_, rfl, by simp [Event.isInit]⟩
      cases hh : c.onErrorFn (some (cannotBeSet field)) s1.world with
      | none => simp only [hh, Outcome.st]; exact h.trans h2
      | some w => simp only [hh, Outcome.st]; exact h.trans h2

theorem Outcome.st_map {α β : Type} (f : α → β) (o : Outcome σ α) : (o.map f).st = o.st := by
  cases o <;> rfl

mutual
theorem fillUp_fieldEvents (c : Configurator σ) :
    ∀ (t : GoType) (v : Option Val) (s : St σ), FieldEventsOnly s.trace (fillUp c t v s).st.trace
  | .struct fs, v, s => by
    unfold fillUp
    split
    · rw [Outcome.st_map]; exact fillFields_fieldEvents c fs _ s
    · split <;> exact FieldEventsOnly.refl _
  | .basic _, v, s => by unfold fillUp; exact FieldEventsOnly.refl _
  | .ptr _, v, s => by unfold fillUp; exact FieldEventsOnly.refl _
theorem fillFields_fieldEvents (c : Configurator σ) :
    ∀ (fs : List StructField) (vs : List Val) (s : St σ),
      FieldEventsOnly s.trace (fillFields c fs vs s).st.trace
  | [], vs, s => by unfold fillFields; exact FieldEventsOnly.refl _
  | _ :: _, [], s => by unfold fillFields; exact FieldEventsOnly.refl _
  | f :: fs, v :: vs, s => by
    unfold fillFields
    have h1 := fillField_fieldEvents c f v s
    cases hf : fillField c f v s with
    | ok v1 s1 =>
      rw [hf] at h1
      simp only [Outcome.st_map]
      exact h1.trans (fillFields_fieldEvents c fs vs s1)
    | abort w v1 s1 =>
      rw [hf] at h1
      exact h1
theorem fillField_fieldEvents (c : Configurator σ) :
    ∀ (f : StructField) (v : Val) (s : St σ), FieldEventsOnly s.trace (fillField c f v s).st.trace
  | .mk n p t g, v, s => by
    unfold fillField
    split
    · split
      · rw [Outcome.st_map]; exact fillUp_fieldEvents c _ _ s
      · exact FieldEventsOnly.refl _
    · split
      · rw [Outcome.st_map]; exact fillUp_fieldEvents c _ _ s
      · exact FieldEventsOnly.refl _
    · exact applyProviders_fieldEvents c _ v s
end

end Walk

/-! ## The checks and the `Init` loop of `InitValues` -/

section Init
variable {σ : Type}

theorem InitsSucceed_append_left (target : Iface) (pre rest : List (Provider σ)) :
    ∀ w, InitsSucceed target (pre ++ rest) w → InitsSucceed target pre w := by
  induction pre with
  | nil => intro w _; trivial
  | cons p pre ih => intro w h; exact ⟨h.1, ih _ h.2⟩

/-- The loop of `InitValues` ends in one of three ways: every provider was registered and
initialised; or it stopped at a provider `q` whose name was registered already; or it
stopped at a provider `q` whose `Init` failed. -/
theorem initLoop_cases (target : Iface) (ps : List (Provider σ)) :
    ∀ (reg : List String) (s : St σ),
      ((ps.map Provider.Name).Nodup ∧ (∀ p ∈ ps, p.Name ∉ reg) ∧
        InitsSucceed target ps s.world ∧
        ∃ w, initLoop target ps reg s =
          (none, (ps.map Provider.Name).reverse ++ reg, ⟨w, s.trace ++ initCalls ps⟩)) ∨
      (∃ pre q post w, ps = pre ++ q :: post ∧
        (q.Name ∈ reg ∨ q.Name ∈ pre.map Provider.Name) ∧
        InitsSucceed target pre s.world ∧
        initLoop target ps reg s =
          (some .ErrProviderNameCollision, (pre.map Provider.Name).reverse ++ reg,
            ⟨w, s.trace ++ initCalls pre⟩)) ∨
      (∃ pre q post w e, ps = pre ++ q :: post ∧
        InitsSucceed target pre s.world ∧ ¬ InitsSucceed target (pre ++ [q]) s.world ∧
        initLoop target ps reg s =
          (some (.errorf ("cannot init [" ++ q.Name ++ "] provider: " ++ e)),
            q.Name :: ((pre.map Provider.Name).reverse ++ reg),
            ⟨w, s.trace ++ initCalls pre ++ [Event.init q.Name (some e)]⟩)) := by
  induction ps with
  | nil =>
    intro reg s
    left
    exact ⟨by simp, by simp, trivial, s.world, by simp [initLoop, initCalls]⟩
  | cons p ps ih =>
    intro reg s
    by_cases hmem : p.Name ∈ reg
    · right; left
      exact ⟨[], p, ps, s.world, rfl, Or.inl hmem, trivial, by simp [initLoop, hmem, initCalls]⟩
    · cases hinit : (p.Init target s.world).err with
      | some e =>
        right; right
        refine ⟨[], p, ps, (p.Init target s.world).world, e, rfl, trivial, ?_, ?_⟩
        · simp [InitsSucceed, hinit]
        · simp [initLoop, hmem, hinit, initCalls]
      | none =>
        have hstep : initLoop target (p :: ps) reg s =
            initLoop target ps (p.Name :: reg)
              ⟨(p.Init target s.world).world, s.trace ++ [Event.init p.Name none]⟩ := by
          simp [initLoop, hmem, hinit]
        rcases ih (p.Name :: reg)
            ⟨(p.Init target s.world).world, s.trace ++ [Event.init p.Name none]⟩ with
          ⟨hnd, hdisj, hok, w, hrun⟩ | ⟨pre, q, post, w, hps, hq, hok, hrun⟩ |
          ⟨pre, q, post, w, e, hps, hok, hbad, hrun⟩
        · left
          refine ⟨?_, ?_, ⟨hinit, hok⟩, w, ?_⟩
          · simp only [List.map_cons, List.nodup_cons]
            refine ⟨?_, hnd⟩
            intro hin
            obtain ⟨x, hx, hxn⟩ := List.mem_map.1 hin
            exact hdisj x hx (by simp [hxn])
          · intro x hx
            rcases List.mem_cons.1 hx with rfl | hx
            · exact hmem
            · intro hxr; exact hdisj x hx (List.mem_cons_of_mem _ hxr)
          · rw [hstep, hrun]; simp [initCalls]
        · right; left
          refine ⟨p :: pre, q, post, w, by simp [hps], ?_, ⟨hinit, hok⟩, ?_⟩
          · rcases hq with hq | hq
            · rcases List.mem_cons.1 hq with h | h
              · right; simp [h]
              · left; exact h
            · right; simp [hq]
          · rw [hstep, hrun]; simp [initCalls]
        · right; right
          refine ⟨p :: pre, q, post, w, e, by simp [hps], ⟨hinit, hok⟩, ?_, ?_⟩
          · intro h; exact hbad h.2
          · rw [hstep, hrun]; simp [initCalls]

theorem initCalls_isInit (ps : List (Provider σ)) : ∀ e ∈ initCalls ps, e.isInit = true := by
  intro e he
  obtain ⟨p, _, rfl⟩ := List.mem_map.1 he
  rfl

/-- The loop of `InitValues` over providers that are registered and initialised one
after the other: it goes on with the rest of the list, the names registered, on the
world the `Init` calls left. -/
theorem initLoop_run (target : Iface) (pre rest : List (Provider σ)) :
    ∀ (reg : List String) (s : St σ),
      (pre.map Provider.Name).Nodup → (∀ p ∈ pre, p.Name ∉ reg) →
      InitsSucceed target pre s.world →
      initLoop target (pre ++ rest) reg s =
        initLoop target rest ((pre.map Provider.Name).reverse ++ reg)
          ⟨initWorld target pre s.world, s.trace ++ initCalls pre⟩ := by
  induction pre with
  | nil => intro reg s _ _ _; simp [initWorld, initCalls]
  | cons p pre ih =>
    intro reg s hnd hreg hok
    simp only [List.map_cons, List.nodup_cons] at hnd
    have hmem : p.Name ∉ reg := hreg p (List.mem_cons_self _ _)
    have hstep : initLoop target (p :: (pre ++ rest)) reg s =
        initLoop target (pre ++ rest) (p.Name :: reg)
          ⟨(p.Init target s.world).world, s.trace ++ [Event.init p.Name none]⟩ := by
      simp [initLoop, hmem, hok.1]
    rw [List.cons_append, hstep, ih (p.Name :: reg) _ hnd.2 ?_ hok.2]
    · simp [initWorld, initCalls]
    · intro q hq hqr
      rcases List.mem_cons.1 hqr with h | h
      · exact hnd.1 (by rw [← h]; exact List.mem_map_of_mem _ hq)
      · exact hreg q (List.mem_cons_of_mem _ hq) h

theorem names_cons_fresh (p : Provider σ) (l : List (Provider σ)) (reg : List String)
    (hmem : p.Name ∉ reg) (hnd : (l.map Provider.Name).Nodup)
    (hdisj : ∀ x ∈ l, x.Name ∉ p.Name :: reg) :
    ((p :: l).map Provider.Name).Nodup ∧ ∀ x ∈ p :: l, x.Name ∉ reg := by
  refine ⟨?_, ?_⟩
  · simp only [List.map_cons, List.nodup_cons]
    refine ⟨?_, hnd⟩
    intro hin
    obtain ⟨x, hx, hxn⟩ := List.mem_map.1 hin
    exact hdisj x hx (by simp [hxn])
  · intro x hx
    rcases List.mem_cons.1 hx with rfl | hx
    · exact hmem
    · intro hxr; exact hdisj x hx (List.mem_cons_of_mem _ hxr)

/-- The loop of `InitValues` ends in one of three ways, each fixed by the names and by
what the `Init` calls return on the worlds they are handed: every name is new and every
`Init` succeeds; or `q` is the first provider whose name is taken and the providers
before it are initialised successfully; or `q` is the first provider whose `Init` fails
and no name up to `q` is taken. -/
theorem initLoop_exact (target : Iface) (ps : List (Provider σ)) (reg : List String)
    (s : St σ) :
    ((ps.map Provider.Name).Nodup ∧ (∀ p ∈ ps, p.Name ∉ reg) ∧
      InitsSucceed target ps s.world ∧
      initLoop target ps reg s =
        (none, (ps.map Provider.Name).reverse ++ reg,
          ⟨initWorld target ps s.world, s.trace ++ initCalls ps⟩)) ∨
    (∃ pre q post, ps = pre ++ q :: post ∧
      ((pre.map Provider.Name).Nodup ∧ ∀ x ∈ pre, x.Name ∉ reg) ∧
      (q.Name ∈ reg ∨ q.Name ∈ pre.map Provider.Name) ∧
      InitsSucceed target pre s.world ∧
      initLoop target ps reg s =
        (some .ErrProviderNameCollision, (pre.map Provider.Name).reverse ++ reg,
          ⟨initWorld target pre s.world, s.trace ++ initCalls pre⟩)) ∨
    (∃ pre q post e, ps = pre ++ q :: post ∧
      (((pre ++ [q]).map Provider.Name).Nodup ∧ ∀ x ∈ pre ++ [q], x.Name ∉ reg) ∧
      InitsSucceed target pre s.world ∧
      (q.Init target (initWorld target pre s.world)).err = some e ∧
      initLoop target ps reg s =
        (some (.errorf ("cannot init [" ++ q.Name ++ "] provider: " ++ e)),
          q.Name :: ((pre.map Provider.Name).reverse ++ reg),
          ⟨(q.Init target (initWorld target pre s.world)).world,
            s.trace ++ initCalls pre ++ [Event.init q.Name (some e)]⟩)) := by
  induction ps generalizing reg s with
  | nil =>
    left
    exact ⟨by simp, by simp, trivial, by simp [initLoop, initCalls, initWorld]⟩
  | cons p ps ih =>
    by_cases hmem : p.Name ∈ reg
    · right; left
      exact ⟨[], p, ps, rfl, ⟨by simp, by simp⟩, Or.inl hmem, trivial,
        by simp [initLoop, hmem, initCalls, initWorld]⟩
    · cases hinit : (p.Init target s.world).err with
      | some e =>
        right; right
        refine ⟨[], p, ps, e, rfl, ⟨by simp, by simpa using hmem⟩, trivial,
          by simpa [initWorld] using hinit, ?_⟩
        simp [initLoop, hmem, hinit, initCalls, initWorld]
      | none =>
        have hstep : initLoop target (p :: ps) reg s =
            initLoop target ps (p.Name :: reg)
              ⟨(p.Init target s.world).world, s.trace ++ [Event.init p.Name none]⟩ := by
          simp [initLoop, hmem, hinit]
        rcases ih (p.Name :: reg)
            ⟨(p.Init target s.world).world, s.trace ++ [Event.init p.Name none]⟩ with
          ⟨hnd, hdisj, hok, hrun⟩ | ⟨pre, q, post, hps, hfresh, hq, hok, hrun⟩ |
          ⟨pre, q, post, e, hps, hfresh, hok, hfail, hrun⟩
        · left
          have h := names_cons_fresh p ps reg hmem hnd hdisj
          refine ⟨h.1, h.2, ⟨hinit, hok⟩, ?_⟩
          rw [hstep, hrun]; simp [initCalls, initWorld]
        · right; left
          refine ⟨p :: pre, q, post, by simp [hps],
            names_cons_fresh p pre reg hmem hfresh.1 hfresh.2, ?_, ⟨hinit, hok⟩, ?_⟩
          · rcases hq with hq | hq
            · rcases List.mem_cons.1 hq with h | h
              · right; simp [h]
              · left; exact h
            · right; simp [hq]
          · rw [hstep, hrun]; simp [initCalls, initWorld]
        · right; right
          refine ⟨p :: pre, q, post, e, by simp [hps],
            names_cons_fresh p (pre ++ [q]) reg hmem hfresh.1 hfresh.2, ⟨hinit, hok⟩, ?_, ?_⟩
          · simpa [initWorld] using hfail
          · rw [hstep, hrun]; simp [initCalls, initWorld]


theorem InitValues_ptr (c : Configurator σ) (s : St σ) (t : GoType) (v : Val)
    (hcfg : c.configPtr = some (.ptr t, v)) (hne : c.providers ≠ []) :
    InitValues c s =
      match initLoop c.configPtr c.providers c.registeredTags s with
      | (some e, reg, s1) => .ok ⟨some e, { c with registeredTags := reg }⟩ s1
      | (none, reg, s1) =>
        (fillUp { c with registeredTags := reg } t v.Elem s1).map fun o =>
          ⟨none, { c with registeredTags := reg, configPtr := some (.ptr t, Val.ofPointee o) }⟩ := by
  have hlen : ¬ c.providers.length = 0 := by
    intro h; exact hne (List.length_eq_zero.1 h)
  unfold InitValues
  rw [hcfg]
  simp only [GoType.Kind, ne_eq, not_true_eq_false, if_false, hlen]

/-- Claim C5, refuted as stated. `Silent` is declared twice, after a provider whose `Init`
fails: `InitValues` returns the `Init` error of `File`, not the collision error. -/
theorem duplicate_names_behind_failing_init :
    (InitValues (New hostTarget [brokenProvider "File", silentProvider, silentProvider])
        st0).val.err =
      some (.errorf "cannot init [File] provider: no such file") := by
  rfl

/-- Claim C5, amended. When two providers of the list share a name and the target is a
pointer, `InitValues` ends in one of two ways, fixed by the names and by what the `Init`
calls return. Either `q` is the first provider whose name is taken, by the registry or by
a provider declared before it, and the providers `pre` declared before `q` are all
initialised successfully: then it returns `ErrProviderNameCollision`. Or `p` is the first
provider whose `Init` fails, after the providers before it succeeded, and no name up to
`p` is taken: then it returns the error of that `Init`, wrapped with the name of `p`. In
both cases the configurator changes in its registry only, so the target is as it was, and
the run consists of `Init` calls only: no field is allocated, set or offered to a
provider. When every `Init` of the list succeeds the error is `ErrProviderNameCollision`. -/
theorem duplicate_names_fail_before_traversal (c : Configurator σ) (s : St σ) (t : GoType)
    (v : Val) (hcfg : c.configPtr = some (.ptr t, v))
    (hdup : ¬ (c.providers.map Provider.Name).Nodup) :
    ((∃ pre q post, c.providers = pre ++ q :: post ∧
        ((pre.map Provider.Name).Nodup ∧ ∀ x ∈ pre, x.Name ∉ c.registeredTags) ∧
        (q.Name ∈ c.registeredTags ∨ q.Name ∈ pre.map Provider.Name) ∧
        InitsSucceed c.configPtr pre s.world ∧
        InitValues c s =
          .ok ⟨some .ErrProviderNameCollision,
              { c with registeredTags := (pre.map Provider.Name).reverse ++ c.registeredTags }⟩
            ⟨initWorld c.configPtr pre s.world, s.trace ++ initCalls pre⟩) ∨
      (∃ pre p post e, c.providers = pre ++ p :: post ∧
        (((pre ++ [p]).map Provider.Name).Nodup ∧
          ∀ x ∈ pre ++ [p], x.Name ∉ c.registeredTags) ∧
        InitsSucceed c.configPtr pre s.world ∧
        (p.Init c.configPtr (initWorld c.configPtr pre s.world)).err = some e ∧
        InitValues c s =
          .ok ⟨some (.errorf ("cannot init [" ++ p.Name ++ "] provider: " ++ e)),
              { c with registeredTags :=
                  p.Name :: ((pre.map Provider.Name).reverse ++ c.registeredTags) }⟩
            ⟨(p.Init c.configPtr (initWorld c.configPtr pre s.world)).world,
              s.trace ++ initCalls pre ++ [Event.init p.Name (some e)]⟩)) ∧
    (InitValues c s).val.cfg.configPtr = c.configPtr ∧
    (InitsSucceed c.configPtr c.providers s.world →
      (InitValues c s).val.err = some .ErrProviderNameCollision) := by
  have hne : c.providers ≠ [] := by
    intro h; apply hdup; simp [h]
  rw [InitValues_ptr c s t v hcfg hne]
  rcases initLoop_exact c.configPtr c.providers c.registeredTags s with
    ⟨hnd, _⟩ | ⟨pre, q, post, hps, hfresh, hq, hok, hrun⟩ |
    ⟨pre, q, post, e, hps, hfresh, hok, hfail, hrun⟩
  · exact absurd hnd hdup
  · rw [hrun]
    exact ⟨Or.inl ⟨pre, q, post, hps, hfresh, hq, hok, rfl⟩, rfl, fun _ => rfl⟩
  · rw [hrun]
    refine ⟨Or.inr ⟨pre, q, post, e, hps, hfresh, hok, hfail, rfl⟩, rfl, ?_⟩
    intro hall
    exfalso
    rw [hps] at hall
    have hq : ∀ (pre : List (Provider σ)) (w : σ),
        InitsSucceed c.configPtr (pre ++ q :: post) w →
        (q.Init c.configPtr (initWorld c.configPtr pre w)).err = none := by
      intro pre
      induction pre with
      | nil => intro w h; exact h.1
      | cons a pre ih => intro w h; exact ih _ h.2
    rw [hq pre s.world hall] at hfail
    cases hfail

/-- Witness of `duplicate_names_fail_before_traversal`: `Silent` declared twice. -/
theorem duplicate_names_fail_before_traversal_witness :
    (InitValues (New hostTarget [silentProvider, silentProvider]) st0).val.err =
        some .ErrProviderNameCollision ∧
    (InitValues (New hostTarget [silentProvider, silentProvider]) st0).val.cfg.configPtr =
        hostTarget :=
  have h := duplicate_names_fail_before_traversal
    (New hostTarget [silentProvider, silentProvider]) st0 (.struct [hostField])
    (.ptrTo (.struct [.leaf ""])) rfl (by decide)
  ⟨h.2.2 ⟨rfl, rfl, trivial⟩, h.2.1⟩

/-- Claim C6, refuted as stated. A nil target makes `InitValues` panic. A `*int` target
passes the pointer check: `Init` is called on the provider, and the walk then panics. -/
theorem non_struct_targets_panic :
    InitValues (New none [silentProvider]) st0 =
      .abort (.panic "runtime error: invalid memory address or nil pointer dereference")
        ⟨none, New none [silentProvider]⟩ st0 ∧
    (InitValues (New intTarget [silentProvider]) st0).returned = false ∧
    (InitValues (New intTarget [silentProvider]) st0).st.trace = [Event.init "Silent" none] := by
  exact ⟨rfl, rfl, rfl⟩

/-- Claim C6, amended. For every non-nil target that is not a pointer, such as a struct
passed by value, `InitValues` returns `ErrNotAPointer` at once: it does not panic, the
configurator and the run state are untouched, so no `Init` was called and nothing was
traversed. -/
theorem non_pointer_target_rejected (c : Configurator σ) (s : St σ) (t : GoType) (v : Val)
    (hcfg : c.configPtr = some (t, v)) (hkind : t.Kind ≠ .Ptr) :
    InitValues c s = .ok ⟨some .ErrNotAPointer, c⟩ s := by
  unfold InitValues
  rw [hcfg]
  simp [hkind]

/-- Witness of `non_pointer_target_rejected`: a struct passed by value. -/
theorem non_pointer_target_rejected_witness :
    InitValues (New byValueTarget [silentProvider]) st0 =
      .ok ⟨some .ErrNotAPointer, New byValueTarget [silentProvider]⟩ st0 :=
  non_pointer_target_rejected (New byValueTarget [silentProvider]) st0 (.struct [hostField])
    (.struct [.leaf ""]) rfl (by decide)

end Init

section InitOrder
variable {σ : Type}

theorem mentions_provider_name (name e : String) :
    Mentions ("cannot init [" ++ name ++ "] provider: " ++ e) name := by
  refine ⟨"cannot init [".data, ("] provider: " ++ e).data, ?_⟩
  simp [String.data_append]

theorem initLoop_ok (target : Iface) (ps : List (Provider σ)) (reg : List String) (s : St σ)
    (hnd : (ps.map Provider.Name).Nodup) (hreg : ∀ p ∈ ps, p.Name ∉ reg)
    (hok : InitsSucceed target ps s.world) :
    ∃ w, initLoop target ps reg s =
      (none, (ps.map Provider.Name).reverse ++ reg, ⟨w, s.trace ++ initCalls ps⟩) := by
  rcases initLoop_cases target ps reg s with
    ⟨_, _, _, w, hrun⟩ | ⟨pre, q, post, w, hps, hq, _, _⟩ | ⟨pre, q, post, w, e, hps, _, hbad, _⟩
  · exact ⟨w, hrun⟩
  · exfalso
    rcases hq with hq | hq
    · exact hreg q (by simp [hps]) hq
    · rw [hps] at hnd
      simp only [List.map_append, List.map_cons] at hnd
      have := (List.nodup_append.1 hnd).2.2
      exact this hq (List.mem_cons_self _ _)
  · exfalso
    apply hbad
    have : InitsSucceed target ((pre ++ [q]) ++ post) s.world := by simpa [hps] using hok
    exact InitsSucceed_append_left _ _ _ _ this

/-- Claim C7, refuted as stated. `File` is the only provider whose `Init` fails, but
`Silent` is declared twice before it: `InitValues` returns `ErrProviderNameCollision`,
not an error built from the name of `File`, and `Init` of `File` is never called. -/
theorem name_collision_hides_failing_init :
    InitValues (New hostTarget [silentProvider, silentProvider, brokenProvider "File"]) st0 =
      .ok ⟨some .ErrProviderNameCollision,
          { New hostTarget [silentProvider, silentProvider, brokenProvider "File"] with
            registeredTags := ["Silent"] }⟩
        ⟨(), [Event.init "Silent" none]⟩ := by
  rfl

/-- Claim C7, amended. Let the target be a pointer and let `p` be the first provider
whose `Init` fails: the providers `pre` declared before it are initialised successfully
one after the other, and `p`, on the world they left, returns the error `e`; let also the
names of `pre` and `p` be pairwise distinct and not registered yet, so that `Init` of `p`
is reached. Then `InitValues` returns the error `cannot init [name of p] provider: e`,
whose text contains the name of `p`. The run consists of the successful `Init` calls of
`pre` followed by the failing call of `p`: no `Init` of a provider declared after `p` and
no `Provide` is called, and the configurator changes in its registry only, so no field of
the target is touched. -/
theorem init_failure_aborts_pass (c : Configurator σ) (s : St σ) (t : GoType) (v : Val)
    (pre post : List (Provider σ)) (p : Provider σ) (e : String)
    (hcfg : c.configPtr = some (.ptr t, v)) (hc : c.providers = pre ++ p :: post)
    (hnd : ((pre ++ [p]).map Provider.Name).Nodup)
    (hreg : ∀ q ∈ pre ++ [p], q.Name ∉ c.registeredTags)
    (hok : InitsSucceed c.configPtr pre s.world)
    (hp : (p.Init c.configPtr (initWorld c.configPtr pre s.world)).err = some e) :
    InitValues c s =
        .ok ⟨some (.errorf ("cannot init [" ++ p.Name ++ "] provider: " ++ e)),
            { c with registeredTags :=
                p.Name :: ((pre.map Provider.Name).reverse ++ c.registeredTags) }⟩
          ⟨(p.Init c.configPtr (initWorld c.configPtr pre s.world)).world,
            s.trace ++ initCalls pre ++ [Event.init p.Name (some e)]⟩ ∧
    Mentions ("cannot init [" ++ p.Name ++ "] provider: " ++ e) p.Name := by
  refine ⟨?_, mentions_provider_name _ _⟩
  have hne : c.providers ≠ [] := by rw [hc]; simp
  have hnd1 : (pre.map Provider.Name).Nodup ∧ p.Name ∉ pre.map Provider.Name := by
    simp only [List.map_append, List.map_cons, List.map_nil] at hnd
    have h := List.nodup_append.1 hnd
    exact ⟨h.1, fun hin => h.2.2 hin (List.mem_singleton_self _)⟩
  have hreg1 : ∀ q ∈ pre, q.Name ∉ c.registeredTags :=
    fun q hq => hreg q (List.mem_append_left _ hq)
  have hpreg : p.Name ∉ (pre.map Provider.Name).reverse ++ c.registeredTags := by
    intro hin
    rcases List.mem_append.1 hin with h | h
    · exact hnd1.2 (List.mem_reverse.1 h)
    · exact hreg p (List.mem_append_right _ (List.mem_singleton_self _)) h
  rw [InitValues_ptr c s t v hcfg hne, hc,
    initLoop_run c.configPtr pre (p :: post) c.registeredTags s hnd1.1 hreg1 hok]
  simp [initLoop, hpreg, hp]

/-- Witness of `init_failure_aborts_pass`: `File`, declared second, fails to initialise. -/
theorem init_failure_aborts_pass_witness :
    InitValues (New hostTarget [silentProvider, brokenProvider "File", constProvider "Late" "x"])
        st0 =
      .ok ⟨some (.errorf "cannot init [File] provider: no such file"),
          { New hostTarget [silentProvider, brokenProvider "File", constProvider "Late" "x"]
            with registeredTags := ["File", "Silent"] }⟩
        ⟨(), [Event.init "Silent" none, Event.init "File" (some "no such file")]⟩ :=
  (init_failure_aborts_pass
    (New hostTarget [silentProvider, brokenProvider "File", constProvider "Late" "x"]) st0
    (.struct [hostField]) (.ptrTo (.struct [.leaf ""])) [silentProvider]
    [constProvider "Late" "x"] (brokenProvider "File") "no such file" rfl rfl (by decide)
    (by intro q _; simp [New]) ⟨rfl, trivial⟩ rfl).1

/-- Claim C8. In a pass that reaches the traversal (pointer target, non-empty chain of
distinctly named providers none of which is registered yet, every `Init` succeeding when
the providers are initialised in chain order) `InitValues` is the walk `fillUp` of the
target started on the world that one `Init` call per provider, made in chain order, has
left, with every name registered and with exactly these `Init` calls in the trace. What
the walk adds to the trace are `Provide` calls and calls of the error handler, so every
`Init` call precedes every `Provide` call. -/
theorem init_once_in_order_before_provide (c : Configurator σ) (s : St σ) (t : GoType) (v : Val)
    (hcfg : c.configPtr = some (.ptr t, v)) (hne : c.providers ≠ [])
    (hnd : (c.providers.map Provider.Name).Nodup)
    (hreg : ∀ p ∈ c.providers, p.Name ∉ c.registeredTags)
    (hok : InitsSucceed c.configPtr c.providers s.world) :
    InitValues c s =
        (fillUp
          { c with registeredTags := (c.providers.map Provider.Name).reverse ++ c.registeredTags }
          t v.Elem
          ⟨initWorld c.configPtr c.providers s.world, s.trace ++ initCalls c.providers⟩).map
          (fun o => ⟨none,
            { c with
              registeredTags := (c.providers.map Provider.Name).reverse ++ c.registeredTags
              configPtr := some (.ptr t, Val.ofPointee o) }⟩) ∧
    ∃ rest, (InitValues c s).st.trace = s.trace ++ initCalls c.providers ++ rest ∧
      ∀ e ∈ rest, e.isInit = false := by
  have hrun : initLoop c.configPtr c.providers c.registeredTags s =
      (none, (c.providers.map Provider.Name).reverse ++ c.registeredTags,
        ⟨initWorld c.configPtr c.providers s.world, s.trace ++ initCalls c.providers⟩) := by
    have h := initLoop_run c.configPtr c.providers [] c.registeredTags s hnd hreg hok
    simpa [initLoop] using h
  have heq := InitValues_ptr c s t v hcfg hne
  rw [hrun] at heq
  refine ⟨heq, ?_⟩
  rw [heq]
  simp only [Outcome.st_map]
  obtain ⟨evs, hevs, hfield⟩ := fillUp_fieldEvents
    { c with registeredTags := (c.providers.map Provider.Name).reverse ++ c.registeredTags }
    t v.Elem ⟨initWorld c.configPtr c.providers s.world, s.trace ++ initCalls c.providers⟩
  exact ⟨evs, hevs, hfield⟩

/-- Witness of `init_once_in_order_before_provide`: two providers whose `Init` writes to
the world; the walk of `Host` starts on the world `A` then `B` have left. -/
theorem init_once_in_order_before_provide_witness :
    InitValues (loggingConfigurator hostTarget [loggingProvider "A", loggingProvider "B"])
        ⟨[], []⟩ =
      (fillUp
        { loggingConfigurator hostTarget [loggingProvider "A", loggingProvider "B"] with
          registeredTags := ["B", "A"] }
        (.struct [hostField]) (some (.struct [.leaf ""]))
        ⟨["A", "B"], [Event.init "A" none, Event.init "B" none]⟩).map
        (fun o => ⟨none,
          { loggingConfigurator hostTarget [loggingProvider "A", loggingProvider "B"] with
            registeredTags := ["B", "A"]
            configPtr := some (.ptr (.struct [hostField]), Val.ofPointee o) }⟩) :=
  (init_once_in_order_before_provide
    (loggingConfigurator hostTarget [loggingProvider "A", loggingProvider "B"]) ⟨[], []⟩
    (.struct [hostField]) (.ptrTo (.struct [.leaf ""])) rfl
    (by simp [loggingConfigurator, New]) (by decide)
    (by intro p _; simp [loggingConfigurator, New]) ⟨rfl, rfl, trivial⟩).1

end InitOrder

/-! ## Storage after a successful walk -/

section Walked
variable {σ : Type}

theorem Outcome.map_eq_ok {α β : Type} {f : α → β} {o : Outcome σ α} {b : β} {s : St σ}
    (h : o.map f = .ok b s) : ∃ a, o = .ok a s ∧ f a = b := by
  cases o with
  | ok a s0 =>
    simp only [Outcome.map, Outcome.ok.injEq] at h
    exact ⟨a, by rw [h.2], h.1⟩
  | abort w a s0 => simp [Outcome.map] at h

theorem provideLoop_val (field : StructField) (ps : List (Provider σ)) :
    ∀ (v : Val) (s : St σ),
      (provideLoop field ps v s).2.1 = chainStorage field ps v s.world := by
  induction ps with
  | nil => intro v s; rfl
  | cons p ps ih =>
    intro v s
    cases h : (p.Provide field v s.world).err with
    | none => simp [provideLoop, chainStorage, h]
    | some e =>
      simp only [provideLoop, chainStorage, h, Option.isNone_some]
      exact ih _ _

/-- Storage of a leaf after `applyProviders`, whether it returns or the handler ends the
run. -/
theorem applyProviders_val (c : Configurator σ) (field : StructField) (v : Val) (s : St σ) :
    (field.PkgPath ≠ "" → (applyProviders c field v s).val = v) ∧
    (field.PkgPath = "" →
      (applyProviders c field v s).val = chainStorage field c.providers v s.world) := by
  unfold applyProviders
  cases hexp : field.IsExported with
  | false =>
    have hpkg : field.PkgPath ≠ "" := by simpa [StructField.IsExported] using hexp
    exact ⟨fun _ => by simp [Outcome.val], fun h => absurd h hpkg⟩
  | true =>
    have hpkg : field.PkgPath = "" := by simpa [StructField.IsExported] using hexp
    refine ⟨fun h => absurd hpkg h, fun _ => ?_⟩
    have h := provideLoop_val field c.providers v s
    rcases hrun : provideLoop field c.providers v s with ⟨b, v1, s1⟩
    rw [hrun] at h
    simp only at h
    rw [← h]
    cases b with
    | true => rfl
    | false =>
      simp only [Bool.not_true, Bool.false_eq_true, if_false]
      cases c.onErrorFn (some (cannotBeSet field)) s1.world <;> rfl

/-- Providers that do not write to `field` when handed the storage `v` leave `v` in it,
whatever they return. -/
theorem chainStorage_of_no_write (field : StructField) (ps : List (Provider σ)) (v : Val)
    (h : ∀ q ∈ ps, ∀ w, (q.Provide field v w).val = v) :
    ∀ w : σ, chainStorage field ps v w = v := by
  induction ps with
  | nil => intro w; rfl
  | cons p ps ih =>
    intro w
    have hp := h p (List.mem_cons_self _ _) w
    simp only [chainStorage]
    split
    · exact hp
    · rw [hp]
      exact ih (fun q hq => h q (List.mem_cons_of_mem _ hq)) _

/-- Storage of a leaf after `applyProviders` has returned. -/
theorem applyProviders_leaf (c : Configurator σ) (field : StructField) (v : Val) (s : St σ)
    (v1 : Val) (s1 : St σ) (h : applyProviders c field v s = .ok v1 s1) :
    (field.PkgPath ≠ "" → v1 = v) ∧
    (field.PkgPath = "" → ∃ w, v1 = chainStorage field c.providers v w) ∧
    ((∀ q ∈ c.providers, ∀ w, (q.Provide field v w).val = v) → v1 = v) := by
  have hval := applyProviders_val c field v s
  rw [h] at hval
  simp only [Outcome.val] at hval
  refine ⟨hval.1, fun hp => ⟨s.world, hval.2 hp⟩, fun hno => ?_⟩
  by_cases hp : field.PkgPath = ""
  · rw [hval.2 hp]
    exact chainStorage_of_no_write field c.providers v hno s.world
  · exact hval.1 hp

mutual
theorem fillFields_walked (c : Configurator σ) :
    ∀ (fs : List StructField) (vs : List Val) (s : St σ) (vs1 : List Val) (s1 : St σ),
      fillFields c fs vs s = .ok vs1 s1 → WalkedFields c.providers fs vs vs1
  | [], vs, s, vs1, s1, h => by
    simp only [fillFields, Outcome.ok.injEq] at h
    simp [WalkedFields, h.1]
  | _ :: _, [], s, vs1, s1, h => by simp [fillFields] at h
  | f :: fs, v :: vs, s, vs1, s1, h => by
    unfold fillFields at h
    cases hf : fillField c f v s with
    | abort w v2 s2 => simp [hf] at h
    | ok v2 s2 =>
      rw [hf] at h
      obtain ⟨vs2, hrest, rfl⟩ := Outcome.map_eq_ok h
      exact ⟨fillField_walked c f v s v2 s2 hf, fillFields_walked c fs vs s2 vs2 s1 hrest⟩
theorem fillField_walked (c : Configurator σ) :
    ∀ (f : StructField) (v : Val) (s : St σ) (v1 : Val) (s1 : St σ),
      fillField c f v s = .ok v1 s1 → WalkedField c.providers f v v1
  | .mk n p (.struct fs) g, v, s, v1, s1, h => by
    unfold fillField at h
    simp only at h
    split at h
    · obtain ⟨o, hrun, rfl⟩ := Outcome.map_eq_ok h
      unfold fillUp at hrun
      cases v with
      | struct vs =>
        simp only at hrun
        obtain ⟨vs1, hfields, rfl⟩ := Outcome.map_eq_ok hrun
        simpa [WalkedField] using fillFields_walked c fs vs s vs1 s1 hfields
      | leaf d =>
        cases fs <;> simp at hrun
        obtain ⟨rfl, _⟩ := hrun
        simp [WalkedField]
      | nilPtr =>
        cases fs <;> simp at hrun
        obtain ⟨rfl, _⟩ := hrun
        simp [WalkedField]
      | ptrTo x =>
        cases fs <;> simp at hrun
        obtain ⟨rfl, _⟩ := hrun
        simp [WalkedField]
    · simp at h
  | .mk n p (.ptr (.struct fs)) g, v, s, v1, s1, h => by
    unfold fillField at h
    simp only at h
    split at h
    · obtain ⟨o, hrun, rfl⟩ := Outcome.map_eq_ok h
      unfold fillUp at hrun
      simp only [zero] at hrun
      obtain ⟨vs1, hfields, rfl⟩ := Outcome.map_eq_ok hrun
      simpa [WalkedField, Val.ofPointee] using
        fillFields_walked c fs (zeroFields fs) s vs1 s1 hfields
    · simp at h
  | .mk n p (.ptr (.basic b)) g, v, s, v1, s1, h => by
    unfold fillField at h
    simp only at h
    exact applyProviders_leaf c (.mk n p (.ptr (.basic b)) g) v s v1 s1 h
  | .mk n p (.ptr (.ptr t)) g, v, s, v1, s1, h => by
    unfold fillField at h
    simp only at h
    exact applyProviders_leaf c (.mk n p (.ptr (.ptr t)) g) v s v1 s1 h
  | .mk n p (.basic b) g, v, s, v1, s1, h => by
    unfold fillField at h
    simp only at h
    exact applyProviders_leaf c (.mk n p (.basic b) g) v s v1 s1 h
end

end Walked

/-! ## A pass under providers with fixed claims -/

section Settled
variable {σ : Type}

theorem errorFields_append (a b : List Event) :
    errorFields (a ++ b) = errorFields a ++ errorFields b := by
  simp [errorFields, List.filterMap_append]

theorem errorFields_provide (tr : List Event) (n : String) (f : StructField) (e : Option String) :
    errorFields (tr ++ [Event.provide n f e]) = errorFields tr := by
  simp [errorFields, List.filterMap_append]

theorem errorFields_onError (tr : List Event) (f : StructField) :
    errorFields (tr ++ [Event.onError f]) = errorFields tr ++ [f] := by
  simp [errorFields, List.filterMap_append]

theorem provideLoop_claims (S : Provider σ → StructField → Bool) (f : StructField)
    (ps : List (Provider σ)) :
    (∀ p ∈ ps, ClaimsExactly p (S p)) →
    ps.Pairwise (fun p q => ∀ g, ¬ (S p g = true ∧ S q g = true)) →
    ∀ (v : Val) (s : St σ),
      ((ps.all fun p => !S p f) = true →
        ∃ s1, provideLoop f ps v s = (false, v, s1) ∧
          errorFields s1.trace = errorFields s.trace) ∧
      ((ps.all fun p => !S p f) = false →
        ∃ v1 s1, provideLoop f ps v s = (true, v1, s1) ∧
          errorFields s1.trace = errorFields s.trace ∧
          ∀ q ∈ ps, S q f = true →
            ∃ w, (q.Provide f v w).err = none ∧ v1 = (q.Provide f v w).val) := by
  induction ps with
  | nil =>
    intro _ _ v s
    exact ⟨fun _ => ⟨s, rfl, rfl⟩, fun h => by simp at h⟩
  | cons p ps ih =>
    intro hcl hd v s
    have hp := hcl p (List.mem_cons_self _ _) f v s.world
    have hcl1 : ∀ q ∈ ps, ClaimsExactly q (S q) := fun q hq => hcl q (List.mem_cons_of_mem _ hq)
    obtain ⟨hhead, hd1⟩ := List.pairwise_cons.1 hd
    cases hS : S p f with
    | true =>
      have herr : (p.Provide f v s.world).err = none := hp.1.2 hS
      refine ⟨fun h => by simp [hS] at h, fun _ => ⟨(p.Provide f v s.world).val,
        ⟨(p.Provide f v s.world).world, s.trace ++ [Event.provide p.Name f none]⟩, ?_, ?_, ?_⟩⟩
      · simp only [provideLoop, herr, Option.isNone_none, if_true]
      · exact errorFields_provide _ _ _ _
      · intro q hq hSq
        rcases List.mem_cons.1 hq with rfl | hq
        · exact ⟨s.world, herr, rfl⟩
        · exact absurd ⟨hS, hSq⟩ (hhead q hq f)
    | false =>
      have herr : (p.Provide f v s.world).err ≠ none := by
        intro h; have := hp.1.1 h; simp [hS] at this
      have hval : (p.Provide f v s.world).val = v := hp.2 hS
      obtain ⟨e, he⟩ := Option.ne_none_iff_exists'.1 herr
      have hstep : provideLoop f (p :: ps) v s =
          provideLoop f ps v
            ⟨(p.Provide f v s.world).world, s.trace ++ [Event.provide p.Name f (some e)]⟩ := by
        simp only [provideLoop, he, Option.isNone_some, hval]
        rfl
      have ih1 := ih hcl1 hd1 v
        ⟨(p.Provide f v s.world).world, s.trace ++ [Event.provide p.Name f (some e)]⟩
      constructor
      · intro hall
        have hall1 : (ps.all fun p => !S p f) = true := by
          simpa [hS] using hall
        obtain ⟨s1, hrun, htr⟩ := ih1.1 hall1
        exact ⟨s1, by rw [hstep, hrun], by rw [htr]; exact errorFields_provide _ _ _ _⟩
      · intro hall
        have hall1 : (ps.all fun p => !S p f) = false := by
          simpa [hS] using hall
        obtain ⟨v1, s1, hrun, htr, hq⟩ := ih1.2 hall1
        refine ⟨v1, s1, by rw [hstep, hrun], by rw [htr]; exact errorFields_provide _ _ _ _, ?_⟩
        intro q hqm hSq
        rcases List.mem_cons.1 hqm with rfl | hqm
        · rw [hS] at hSq; exact absurd hSq (by simp)
        · exact hq q hqm hSq

/-- A leaf under providers with fixed claims and a handler that returns. -/
theorem applyProviders_settled (c : Configurator σ) (S : Provider σ → StructField → Bool)
    (hcl : ∀ p ∈ c.providers, ClaimsExactly p (S p))
    (hd : c.providers.Pairwise (fun p q => ∀ g, ¬ (S p g = true ∧ S q g = true)))
    (hh : ∀ e w, (c.onErrorFn e w).isSome = true)
    (f : StructField) (v : Val) (s : St σ) :
    ∃ v1 s1, applyProviders c f v s = .ok v1 s1 ∧ SettledLeaf c.providers S f v v1 ∧
      errorFields s1.trace = errorFields s.trace ++ [f].filter (unclaimed c.providers S) := by
  unfold applyProviders
  cases hexp : f.IsExported with
  | false =>
    refine ⟨v, s, by simp, ⟨fun _ => rfl, (fun h => by rw [hexp] at h; cases h), fun _ => rfl⟩, ?_⟩
    simp [unclaimed, hexp]
  | true =>
    have hloop := provideLoop_claims S f c.providers hcl hd v s
    cases hall : (c.providers.all fun p => !S p f) with
    | true =>
      obtain ⟨s1, hrun, htr⟩ := hloop.1 hall
      obtain ⟨w, hw⟩ := Option.isSome_iff_exists.1 (hh (some (cannotBeSet f)) s1.world)
      refine ⟨v, ⟨w, s1.trace ++ [Event.onError f]⟩, by simp [hrun, hw], ?_, ?_⟩
      · refine ⟨fun _ => rfl, ?_, fun _ => rfl⟩
        intro _ q hq hSq
        have := List.all_eq_true.1 hall q hq
        simp [hSq] at this
      · simp only [errorFields_onError, htr]
        simp [unclaimed, hexp, hall]
    | false =>
      obtain ⟨v1, s1, hrun, htr, hq⟩ := hloop.2 hall
      refine ⟨v1, s1, by simp [hrun], ?_, ?_⟩
      · refine ⟨(fun h => by rw [hexp] at h; cases h), fun _ => hq, ?_⟩
        intro hu
        simp [unclaimed, hexp, hall] at hu
      · rw [htr]
        simp [unclaimed, hexp, hall]

mutual
theorem hasTypeFields_zero : ∀ fs : List StructField, hasTypeFields fs (zeroFields fs) = true
  | [] => by simp [zeroFields, hasTypeFields]
  | f :: fs => by
    simp only [zeroFields, hasTypeFields, Bool.and_eq_true]
    exact ⟨hasTypeField_zero f, hasTypeFields_zero fs⟩
theorem hasTypeField_zero : ∀ f : StructField, hasTypeField f (zeroField f) = true
  | .mk _ _ t _ => by
    simp only [zeroField, hasTypeField]
    exact hasType_zero t
theorem hasType_zero : ∀ t : GoType, hasType t (zero t) = true
  | .basic _ => by simp [zero, hasType]
  | .ptr _ => by simp [zero, hasType]
  | .struct fs => by
    simp only [zero, hasType]
    exact hasTypeFields_zero fs
end

mutual
theorem fillFields_settled (c : Configurator σ) (S : Provider σ → StructField → Bool)
    (hcl : ∀ p ∈ c.providers, ClaimsExactly p (S p))
    (hd : c.providers.Pairwise (fun p q => ∀ g, ¬ (S p g = true ∧ S q g = true)))
    (hh : ∀ e w, (c.onErrorFn e w).isSome = true) :
    ∀ (fs : List StructField) (vs : List Val) (s : St σ),
      walkableFields fs = true → hasTypeFields fs vs = true →
      ∃ vs1 s1, fillFields c fs vs s = .ok vs1 s1 ∧ SettledFields c.providers S fs vs vs1 ∧
        errorFields s1.trace =
          errorFields s.trace ++ (leafFields fs).filter (unclaimed c.providers S)
  | [], [], s, _, _ => ⟨[], s, by simp [fillFields], by simp [SettledFields], by simp [leafFields]⟩
  | [], _ :: _, s, _, ht => by simp [hasTypeFields] at ht
  | _ :: _, [], s, _, ht => by simp [hasTypeFields] at ht
  | f :: fs, v :: vs, s, hw, ht => by
    simp only [walkableFields, Bool.and_eq_true] at hw
    simp only [hasTypeFields, Bool.and_eq_true] at ht
    obtain ⟨v1, s1, hf, hset, htr⟩ := fillField_settled c S hcl hd hh f v s hw.1 ht.1
    obtain ⟨vs1, s2, hfs, hsets, htrs⟩ := fillFields_settled c S hcl hd hh fs vs s1 hw.2 ht.2
    refine ⟨v1 :: vs1, s2, ?_, ⟨hset, hsets⟩, ?_⟩
    · simp [fillFields, hf, hfs, Outcome.map]
    · rw [htrs, htr]
      simp [leafFields, List.filter_append]
theorem fillField_settled (c : Configurator σ) (S : Provider σ → StructField → Bool)
    (hcl : ∀ p ∈ c.providers, ClaimsExactly p (S p))
    (hd : c.providers.Pairwise (fun p q => ∀ g, ¬ (S p g = true ∧ S q g = true)))
    (hh : ∀ e w, (c.onErrorFn e w).isSome = true) :
    ∀ (f : StructField) (v : Val) (s : St σ),
      walkableField f = true → hasTypeField f v = true →
      ∃ v1 s1, fillField c f v s = .ok v1 s1 ∧ SettledField c.providers S f v v1 ∧
        errorFields s1.trace =
          errorFields s.trace ++ (leafFieldsOf f).filter (unclaimed c.providers S)
  | .mk n p (.struct fs) g, v, s, hw, ht => by
    simp only [walkableField, Bool.and_eq_true, beq_iff_eq] at hw
    obtain ⟨hp, hwf⟩ := hw
    subst hp
    cases v with
    | struct vs =>
      simp only [hasTypeField, hasType] at ht
      obtain ⟨vs1, s1, hfs, hset, htr⟩ := fillFields_settled c S hcl hd hh fs vs s hwf ht
      refine ⟨.struct vs1, s1, ?_, by simpa [SettledField] using hset, ?_⟩
      · simp [fillField, fillUp, hfs, Outcome.map]
      · simpa [leafFieldsOf] using htr
    | leaf d => simp [hasTypeField, hasType] at ht
    | nilPtr => simp [hasTypeField, hasType] at ht
    | ptrTo x => simp [hasTypeField, hasType] at ht
  | .mk n p (.ptr (.struct fs)) g, v, s, hw, _ => by
    simp only [walkableField, Bool.and_eq_true, beq_iff_eq] at hw
    obtain ⟨hp, hwf⟩ := hw
    subst hp
    obtain ⟨vs1, s1, hfs, hset, htr⟩ :=
      fillFields_settled c S hcl hd hh fs (zeroFields fs) s hwf (hasTypeFields_zero fs)
    refine ⟨.ptrTo (.struct vs1), s1, ?_, by simpa [SettledField] using hset, ?_⟩
    · simp [fillField, fillUp, zero, hfs, Outcome.map, Val.ofPointee]
    · simpa [leafFieldsOf] using htr
  | .mk n p (.ptr (.basic b)) g, v, s, _, _ => by
    simpa [fillField, SettledField, leafFieldsOf] using
      applyProviders_settled c S hcl hd hh (.mk n p (.ptr (.basic b)) g) v s
  | .mk n p (.ptr (.ptr t)) g, v, s, _, _ => by
    simpa [fillField, SettledField, leafFieldsOf] using
      applyProviders_settled c S hcl hd hh (.mk n p (.ptr (.ptr t)) g) v s
  | .mk n p (.basic b) g, v, s, _, _ => by
    simpa [fillField, SettledField, leafFieldsOf] using
      applyProviders_settled c S hcl hd hh (.mk n p (.basic b) g) v s
end

end Settled

section Pass
variable {σ : Type}

/-- Claim C2, refuted as stated. `DB` points to an instance whose `Name` is `prod`; `Env`
claims `Host` only and the handler returns. After the pass `Host` holds the value of
`Env`, the handler was invoked once, on `Name`, and `Name` does not hold its prior value
`prod`: it is the empty string of a new instance. -/
theorem unclaimed_leaf_behind_pointer_is_reset :
    (InitValues (lenientConfigurator presetTarget [namedProvider "Env" "Host" "example.com"])
        st0).val.cfg.configPtr =
      some (.ptr (.struct [hostField, dbField]),
        .ptrTo (.struct [.leaf "example.com", .ptrTo (.struct [.leaf ""])])) ∧
    errorFields (InitValues
        (lenientConfigurator presetTarget [namedProvider "Env" "Host" "example.com"])
        st0).st.trace = [nameField] := by
  exact ⟨rfl, rfl⟩

/-- Claim C2, amended. Take a target that is a pointer to a well-typed struct value all of
whose struct-typed and pointer-to-struct fields are exported; a non-empty chain of
providers whose names are pairwise distinct and not yet in the registry of the
configurator, and whose `Init` calls succeed; provider `q` claiming exactly the fields of
`S q`, that is returning nil on the fields of `S q` and, on every other field, returning
an error and leaving the storage as it was; the sets pairwise disjoint; and a handler
that returns. Then `InitValues` returns nil; every exported leaf in the set of a provider
holds what that provider produced for it, on the storage the leaf held when the walk
reached it; every exported leaf in no set holds the value it had when the walk reached
it, which is its prior value outside pointer-to-struct fields and the zero value inside
them; and the handler was invoked exactly on the unclaimed exported leaves, once each, in
traversal order. -/
theorem disjoint_claims_settle_every_field (c : Configurator σ) (s : St σ)
    (fs : List StructField) (vs : List Val) (S : Provider σ → StructField → Bool)
    (hcfg : c.configPtr = some (.ptr (.struct fs), .ptrTo (.struct vs)))
    (htyped : hasTypeFields fs vs = true) (hwalk : walkableFields fs = true)
    (hne : c.providers ≠ []) (hnd : (c.providers.map Provider.Name).Nodup)
    (hreg : ∀ p ∈ c.providers, p.Name ∉ c.registeredTags)
    (hok : InitsSucceed c.configPtr c.providers s.world)
    (hcl : ∀ p ∈ c.providers, ClaimsExactly p (S p))
    (hd : c.providers.Pairwise (fun p q => ∀ g, ¬ (S p g = true ∧ S q g = true)))
    (hh : ∀ e w, (c.onErrorFn e w).isSome = true) :
    ∃ c1 s1 vs1, InitValues c s = .ok ⟨none, c1⟩ s1 ∧
      c1.configPtr = some (.ptr (.struct fs), .ptrTo (.struct vs1)) ∧
      SettledFields c.providers S fs vs vs1 ∧
      errorFields s1.trace =
        errorFields s.trace ++ (leafFields fs).filter (unclaimed c.providers S) := by
  obtain ⟨w, hrun⟩ := initLoop_ok c.configPtr c.providers c.registeredTags s hnd hreg hok
  obtain ⟨vs1, s1, hfs, hset, htr⟩ := fillFields_settled
    { c with registeredTags := (c.providers.map Provider.Name).reverse ++ c.registeredTags }
    S hcl hd hh fs vs ⟨w, s.trace ++ initCalls c.providers⟩ hwalk htyped
  refine ⟨{ c with
      registeredTags := (c.providers.map Provider.Name).reverse ++ c.registeredTags
      configPtr := some (.ptr (.struct fs), .ptrTo (.struct vs1)) }, s1, vs1, ?_, rfl, hset, ?_⟩
  · rw [InitValues_ptr c s _ _ hcfg hne, hrun]
    simp only [fillUp, Val.Elem, hfs, Outcome.map, Val.ofPointee]
  · rw [htr, errorFields_append]
    have : errorFields (initCalls c.providers) = [] := by
      simp [errorFields, initCalls, List.filterMap_map]
    simp [this]

/-- Witness of `disjoint_claims_settle_every_field`: `Env` claims `Host`, `Silent` claims
nothing, on a target with a nil `DB`. -/
theorem disjoint_claims_settle_every_field_witness :
    ∃ c1 s1 vs1,
      InitValues (lenientConfigurator freshTarget
          [namedProvider "Env" "Host" "example.com", silentProvider]) st0 = .ok ⟨none, c1⟩ s1 ∧
      c1.configPtr = some (.ptr (.struct [hostField, dbField]), .ptrTo (.struct vs1)) ∧
      SettledFields [namedProvider "Env" "Host" "example.com", silentProvider] sampleClaims
        [hostField, dbField] [.leaf "", .nilPtr] vs1 ∧
      errorFields s1.trace =
        errorFields st0.trace ++ (leafFields [hostField, dbField]).filter
          (unclaimed [namedProvider "Env" "Host" "example.com", silentProvider] sampleClaims) :=
  disjoint_claims_settle_every_field
    (lenientConfigurator freshTarget [namedProvider "Env" "Host" "example.com", silentProvider])
    st0 [hostField, dbField] [.leaf "", .nilPtr] sampleClaims rfl rfl rfl
    (by simp [lenientConfigurator, New])
    (by decide)
    (by intro p _; simp [lenientConfigurator, New])
    ⟨rfl, rfl, trivial⟩
    (by
      intro p hp
      simp only [lenientConfigurator, New, List.mem_cons, List.mem_singleton,
        List.not_mem_nil, or_false] at hp
      rcases hp with rfl | rfl
      · intro f v w
        by_cases h : f.Name = "Host" <;> simp [namedProvider, sampleClaims, h]
      · intro f v w
        simp [silentProvider, sampleClaims])
    (by simp [lenientConfigurator, New, sampleClaims, silentProvider])
    (by intro e w; rfl)

/-- Claim C9. After a successful pass (`InitValues` returned nil) the target is a pointer
to a struct and, unless the struct has no field at all, its storage is related to the
storage before the pass by `WalkedFields`: every pointer-to-struct field reached by the
walk, at any depth and whatever it held before, nil included, points to a struct value
with one value per field of the pointee type, and that instance was walked starting from
the zero value. So a leaf inside it holds what the chain, consulted on the zero value of
the leaf, has left, and a leaf inside it to which no provider writes holds its zero
value. -/
theorem pointer_fields_allocated_after_pass (c c1 : Configurator σ) (s s1 : St σ)
    (hrun : InitValues c s = .ok ⟨none, c1⟩ s1) :
    ∃ fs v, c.configPtr = some (.ptr (.struct fs), v) ∧
      (fs = [] ∨ ∃ vs vs1, v = .ptrTo (.struct vs) ∧
        c1.configPtr = some (.ptr (.struct fs), .ptrTo (.struct vs1)) ∧
        WalkedFields c.providers fs vs vs1) := by
  cases hcfg : c.configPtr with
  | none => simp [InitValues, hcfg] at hrun
  | some tv =>
    obtain ⟨t, v⟩ := tv
    cases t with
    | basic b => simp [InitValues, hcfg, GoType.Kind] at hrun
    | struct fs => simp [InitValues, hcfg, GoType.Kind] at hrun
    | ptr t =>
      by_cases hne : c.providers = []
      · simp [InitValues, hcfg, GoType.Kind, hne] at hrun
      · rw [InitValues_ptr c s t v hcfg hne] at hrun
        rcases hloop : initLoop c.configPtr c.providers c.registeredTags s with ⟨_ | e, reg, s0⟩
        · rw [hloop] at hrun
          simp only at hrun
          obtain ⟨o, hfill, hret⟩ := Outcome.map_eq_ok hrun
          cases t with
          | basic b => simp [fillUp] at hfill
          | ptr t => simp [fillUp] at hfill
          | struct fs =>
            refine ⟨fs, v, rfl, ?_⟩
            cases v with
            | ptrTo x =>
              cases x with
              | struct vs =>
                right
                simp only [fillUp, Val.Elem] at hfill
                obtain ⟨vs1, hfields, rfl⟩ := Outcome.map_eq_ok hfill
                refine ⟨vs, vs1, rfl, ?_, ?_⟩
                · injection hret with _ hc
                  rw [← hc]
                  rfl
                · exact fillFields_walked { c with registeredTags := reg } fs vs s0 vs1 s1 hfields
              | leaf d => left; cases fs with | nil => rfl | cons _ _ => simp [fillUp, Val.Elem] at hfill
              | nilPtr => left; cases fs with | nil => rfl | cons _ _ => simp [fillUp, Val.Elem] at hfill
              | ptrTo y => left; cases fs with | nil => rfl | cons _ _ => simp [fillUp, Val.Elem] at hfill
            | leaf d => left; cases fs with | nil => rfl | cons _ _ => simp [fillUp, Val.Elem] at hfill
            | nilPtr => left; cases fs with | nil => rfl | cons _ _ => simp [fillUp, Val.Elem] at hfill
            | struct vs => left; cases fs with | nil => rfl | cons _ _ => simp [fillUp, Val.Elem] at hfill
        · rw [hloop] at hrun
          simp at hrun

/-- Witness of `pointer_fields_allocated_after_pass`: the nil `DB` of the target is
allocated although no provider sets `Name`. -/
theorem pointer_fields_allocated_after_pass_witness :
    ∃ fs v, (lenientConfigurator freshTarget [silentProvider]).configPtr =
        some (.ptr (.struct fs), v) ∧
      (fs = [] ∨ ∃ vs vs1, v = .ptrTo (.struct vs) ∧
        ({ lenientConfigurator freshTarget [silentProvider] with
            registeredTags := ["Silent"]
            configPtr := some (.ptr (.struct [hostField, dbField]),
              .ptrTo (.struct [.leaf "", .ptrTo (.struct [.leaf ""])])) }
          : Configurator Unit).configPtr = some (.ptr (.struct fs), .ptrTo (.struct vs1)) ∧
        WalkedFields (lenientConfigurator freshTarget [silentProvider]).providers fs vs vs1) :=
  pointer_fields_allocated_after_pass (lenientConfigurator freshTarget [silentProvider]) _ st0
    ⟨(), [Event.init "Silent" none, Event.provide "Silent" hostField (some "empty value"),
      Event.onError hostField, Event.provide "Silent" nameField (some "empty value"),
      Event.onError nameField]⟩ rfl

/-- Claim C10, refuted as stated. `DB` points to an instance whose `Name` is `prod` and no
provider sets `Name`; after the pass `Name` is the empty string: the instance was
replaced. -/
theorem preset_pointer_field_is_replaced :
    (InitValues (lenientConfigurator dbTarget [silentProvider]) st0).val.cfg.configPtr =
      some (.ptr (.struct [dbField]), .ptrTo (.struct [.ptrTo (.struct [.leaf ""])])) := by
  rfl

/-- Claim C10, amended. On an exported pointer-to-struct field the engine always stores a
newly allocated zero instance and walks that one: whatever the field held before, nil or
an instance, the iteration is the walk of the zero value of the pointee type, and what it
leaves in the field is a pointer to that walked value. When it returns, every leaf inside
holds what the chain, consulted on the zero value of the leaf, has left, and a leaf
inside to which no provider writes holds its zero value, not the value it had before
the pass. -/
theorem pointer_field_always_reallocated (c : Configurator σ) (n : String)
    (g : List (String × String)) (fs : List StructField) (s : St σ) :
    (∀ v : Val, fillField c (.mk n "" (.ptr (.struct fs)) g) v s =
        (fillFields c fs (zeroFields fs) s).map fun vs1 => Val.ptrTo (.struct vs1)) ∧
    (∀ (v v1 : Val) (s1 : St σ), fillField c (.mk n "" (.ptr (.struct fs)) g) v s = .ok v1 s1 →
      ∃ vs1, v1 = .ptrTo (.struct vs1) ∧ WalkedFields c.providers fs (zeroFields fs) vs1) := by
  refine ⟨fun v => ?_, ?_⟩
  · simp only [fillField, fillUp, zero, beq_self_eq_true, if_true]
    cases fillFields c fs (zeroFields fs) s <;> rfl
  · intro v v1 s1 h
    have hw := fillField_walked c _ v s v1 s1 h
    cases v1 with
    | ptrTo x =>
      cases x with
      | struct vs1 => exact ⟨vs1, rfl, by simpa [WalkedField] using hw⟩
      | leaf d => simp [WalkedField] at hw
      | nilPtr => simp [WalkedField] at hw
      | ptrTo y => simp [WalkedField] at hw
    | leaf d => simp [WalkedField] at hw
    | nilPtr => simp [WalkedField] at hw
    | struct vs => simp [WalkedField] at hw

/-- Witness of `pointer_field_always_reallocated`: `DB` points to an instance whose
`Name` is `prod`; the walk returns with `DB` pointing to an instance walked from the zero
value. -/
theorem pointer_field_always_reallocated_witness :
    ∃ vs1, Val.ptrTo (.struct [.leaf ""]) = .ptrTo (.struct vs1) ∧
      WalkedFields (lenientConfigurator dbTarget [silentProvider]).providers [nameField]
        (zeroFields [nameField]) vs1 :=
  (pointer_field_always_reallocated (lenientConfigurator dbTarget [silentProvider]) "DB" []
    [nameField] st0).2 (.ptrTo (.struct [.leaf "prod"])) (.ptrTo (.struct [.leaf ""]))
    ⟨(), [Event.provide "Silent" nameField (some "empty value"), Event.onError nameField]⟩ rfl

end Pass

/-! ## The order in which leaves are offered -/

section Order
variable {σ : Type}

theorem offersInOrder_nil (ps : List (Provider σ)) : OffersInOrder ps [] [] :=
  ⟨[], List.Forall₂.nil, rfl⟩

theorem offersInOrder_single {ps : List (Provider σ)} {f : StructField} {block : List Event}
    (h : IsChainBlock ps f block) : OffersInOrder ps [f] block :=
  ⟨[block], List.Forall₂.cons h List.Forall₂.nil, by simp⟩

theorem offersInOrder_append {ps : List (Provider σ)} {L1 L2 : List StructField}
    {e1 e2 : List Event} (h1 : OffersInOrder ps L1 e1) (h2 : OffersInOrder ps L2 e2) :
    OffersInOrder ps (L1 ++ L2) (e1 ++ e2) := by
  obtain ⟨b1, hb1, rfl⟩ := h1
  obtain ⟨b2, hb2, rfl⟩ := h2
  exact ⟨b1 ++ b2, List.rel_append hb1 hb2, by simp⟩

/-- One exported leaf offered to the chain adds exactly one block to the trace. -/
theorem applyProviders_block (c : Configurator σ) (f : StructField) (v : Val) (s : St σ)
    (hexp : f.IsExported = true) :
    ∃ block, IsChainBlock c.providers f block ∧
      (applyProviders c f v s).st.trace = s.trace ++ block := by
  rcases provideLoop_shape f c.providers v s with
    ⟨pre, p, post, errs, v0, w0, hps, hlen, _, hrun⟩ | ⟨errs, v1, w1, hlen, hrun⟩
  · refine ⟨_, Or.inl ⟨pre, p, post, errs, hps, hlen, rfl⟩, ?_⟩
    simp [applyProviders, hexp, hrun, Outcome.st]
  · refine ⟨_, Or.inr ⟨errs, hlen, rfl⟩, ?_⟩
    simp only [applyProviders, hexp, hrun]
    cases c.onErrorFn (some (cannotBeSet f)) w1 <;> simp [Outcome.st]

/-- A leaf field offered or skipped: the trace grows by the offering of the eligible
leaves below it. -/
theorem applyProviders_offers (c : Configurator σ) (f : StructField) (v : Val) (s : St σ) :
    ∃ evs, (applyProviders c f v s).st.trace = s.trace ++ evs ∧
      OffersInOrder c.providers ([f].filter fun g => g.IsExported) evs := by
  cases hexp : f.IsExported with
  | false =>
    refine ⟨[], by simp [applyProviders, hexp, Outcome.st], ?_⟩
    simpa [hexp] using offersInOrder_nil c.providers
  | true =>
    obtain ⟨block, hb, htr⟩ := applyProviders_block c f v s hexp
    exact ⟨block, htr, by simpa [hexp] using offersInOrder_single hb⟩

theorem Outcome.returned_map {α β : Type} (f : α → β) (o : Outcome σ α) :
    (o.map f).returned = o.returned := by
  cases o <;> rfl

theorem Outcome.val_map {α β : Type} (f : α → β) (o : Outcome σ α) :
    (o.map f).val = f o.val := by
  cases o <;> rfl

theorem walkOffers_idle (ps : List (Provider σ)) (all : List StructField) {α : Type}
    (s : St σ) (o : Outcome σ α) (htr : o.st.trace = s.trace) (hret : o.returned = false) :
    WalkOffers ps all s o :=
  ⟨[], [], by simp [htr], offersInOrder_nil ps, List.nil_prefix, by simp [hret]⟩

theorem walkOffers_map {ps : List (Provider σ)} {all : List StructField} {α β : Type}
    {s : St σ} {o : Outcome σ α} (f : α → β) (h : WalkOffers ps all s o) :
    WalkOffers ps all s (o.map f) := by
  obtain ⟨L, evs, htr, hoff, hpre, hall⟩ := h
  exact ⟨L, evs, by rw [Outcome.st_map]; exact htr, hoff, hpre,
    by rw [Outcome.returned_map]; exact hall⟩

mutual
theorem fillUp_offers (c : Configurator σ) :
    ∀ (t : GoType) (v : Option Val) (s : St σ),
      WalkOffers c.providers (exportedLeavesOfType t) s (fillUp c t v s)
  | .struct fs, v, s => by
    unfold fillUp
    split
    · exact walkOffers_map _ (fillFields_offers c fs _ s)
    · split
      · exact ⟨[], [], by simp [Outcome.st], offersInOrder_nil _, List.nil_prefix,
          by simp [exportedLeavesOfType, exportedLeaves, leafFields]⟩
      · exact walkOffers_idle _ _ _ _ rfl rfl
  | .basic _, v, s => by unfold fillUp; exact walkOffers_idle _ _ _ _ rfl rfl
  | .ptr _, v, s => by unfold fillUp; exact walkOffers_idle _ _ _ _ rfl rfl
theorem fillFields_offers (c : Configurator σ) :
    ∀ (fs : List StructField) (vs : List Val) (s : St σ),
      WalkOffers c.providers (exportedLeaves fs) s (fillFields c fs vs s)
  | [], vs, s => by
    unfold fillFields
    exact ⟨[], [], by simp [Outcome.st], offersInOrder_nil _, List.nil_prefix,
      by simp [exportedLeaves, leafFields]⟩
  | _ :: _, [], s => by unfold fillFields; exact walkOffers_idle _ _ _ _ rfl rfl
  | f :: fs, v :: vs, s => by
    have hsplit : exportedLeaves (f :: fs) = exportedLeavesOf f ++ exportedLeaves fs := by
      simp [exportedLeaves, exportedLeavesOf, leafFields, List.filter_append]
    unfold fillFields
    obtain ⟨L1, e1, htr1, hoff1, hpre1, hall1⟩ := fillField_offers c f v s
    cases hf : fillField c f v s with
    | abort w v1 s1 =>
      rw [hf] at htr1
      refine ⟨L1, e1, htr1, hoff1, ?_, by simp [Outcome.returned]⟩
      rw [hsplit]
      exact hpre1.trans (List.prefix_append _ _)
    | ok v1 s1 =>
      rw [hf] at htr1 hall1
      have hL1 : L1 = exportedLeavesOf f := hall1 rfl
      obtain ⟨L2, e2, htr2, hoff2, hpre2, hall2⟩ := fillFields_offers c fs vs s1
      simp only [Outcome.st] at htr1
      refine ⟨L1 ++ L2, e1 ++ e2, ?_, offersInOrder_append hoff1 hoff2, ?_, ?_⟩
      · rw [Outcome.st_map, htr2, htr1, List.append_assoc]
      · rw [hsplit, hL1]
        exact (List.prefix_append_right_inj _).2 hpre2
      · intro hret
        rw [Outcome.returned_map] at hret
        rw [hsplit, hL1, hall2 hret]
theorem fillField_offers (c : Configurator σ) :
    ∀ (f : StructField) (v : Val) (s : St σ),
      WalkOffers c.providers (exportedLeavesOf f) s (fillField c f v s)
  | .mk n p (.struct fs) g, v, s => by
    unfold fillField
    simp only
    split
    · exact walkOffers_map _ (fillUp_offers c (.struct fs) (some v) s)
    · exact walkOffers_idle _ _ _ _ rfl rfl
  | .mk n p (.ptr (.struct fs)) g, v, s => by
    unfold fillField
    simp only
    split
    · exact walkOffers_map _ (fillUp_offers c (.struct fs) (some (zero (.struct fs))) s)
    · exact walkOffers_idle _ _ _ _ rfl rfl
  | .mk n p (.ptr (.basic b)) g, v, s => by
    unfold fillField
    obtain ⟨evs, htr, hoff⟩ := applyProviders_offers c (.mk n p (.ptr (.basic b)) g) v s
    exact ⟨_, evs, htr, hoff, List.prefix_refl _, fun _ => rfl⟩
  | .mk n p (.ptr (.ptr t)) g, v, s => by
    unfold fillField
    obtain ⟨evs, htr, hoff⟩ := applyProviders_offers c (.mk n p (.ptr (.ptr t)) g) v s
    exact ⟨_, evs, htr, hoff, List.prefix_refl _, fun _ => rfl⟩
  | .mk n p (.basic b) g, v, s => by
    unfold fillField
    obtain ⟨evs, htr, hoff⟩ := applyProviders_offers c (.mk n p (.basic b) g) v s
    exact ⟨_, evs, htr, hoff, List.prefix_refl _, fun _ => rfl⟩
end

theorem declined_length (f : StructField) (ps : List (Provider σ)) (errs : List String)
    (h : errs.length = ps.length) : (declined f ps errs).length = ps.length := by
  simp [declined, h]

theorem declined_isProvide (f : StructField) (ps : List (Provider σ)) (errs : List String) :
    ∀ e ∈ declined f ps errs, e.isProvide = true ∧ e.field = some f := by
  intro e he
  simp only [declined, List.mem_iff_get, List.get_eq_getElem, List.getElem_zipWith] at he
  obtain ⟨i, rfl⟩ := he
  exact ⟨rfl, rfl⟩

theorem provideCount_declined (f : StructField) (ps : List (Provider σ)) (errs : List String)
    (h : errs.length = ps.length) : provideCount (declined f ps errs) = ps.length := by
  unfold provideCount
  rw [List.filter_eq_self.2 (fun e he => (declined_isProvide f ps errs e he).1)]
  exact declined_length f ps errs h

theorem provideCount_append (a b : List Event) :
    provideCount (a ++ b) = provideCount a + provideCount b := by
  simp [provideCount, List.filter_append]

/-- One block holds at most one `Provide` call per provider. -/
theorem chainBlock_provideCount_le {ps : List (Provider σ)} {f : StructField}
    {block : List Event} (h : IsChainBlock ps f block) : provideCount block ≤ ps.length := by
  rcases h with ⟨pre, p, post, errs, hps, hlen, rfl⟩ | ⟨errs, hlen, rfl⟩
  · rw [provideCount_append, provideCount_declined f pre errs hlen, hps]
    simp [provideCount, Event.isProvide]
  · rw [provideCount_append, provideCount_declined f ps errs hlen]
    simp [provideCount, Event.isProvide]

/-- Every event of a block is about the leaf of the block. -/
theorem chainBlock_field_eq {ps : List (Provider σ)} {f : StructField}
    {block : List Event} (h : IsChainBlock ps f block) : ∀ e ∈ block, e.field = some f := by
  rcases h with ⟨pre, p, post, errs, _, _, rfl⟩ | ⟨errs, _, rfl⟩
  · intro e he
    rcases List.mem_append.1 he with h | h
    · exact (declined_isProvide f pre errs e h).2
    · simp at h; subst h; rfl
  · intro e he
    rcases List.mem_append.1 he with h | h
    · exact (declined_isProvide f ps errs e h).2
    · simp at h; subst h; rfl

theorem offersInOrder_provideCount_le {ps : List (Provider σ)} {L : List StructField}
    {evs : List Event} (h : OffersInOrder ps L evs) :
    provideCount evs ≤ L.length * ps.length := by
  obtain ⟨blocks, hb, rfl⟩ := h
  induction hb with
  | nil => simp [provideCount]
  | cons h1 _ ih =>
    simp only [List.flatten_cons, provideCount_append, List.length_cons]
    have := chainBlock_provideCount_le h1
    rw [Nat.add_mul, Nat.one_mul]
    omega

theorem offersInOrder_field_mem {ps : List (Provider σ)} {L : List StructField}
    {evs : List Event} (h : OffersInOrder ps L evs) :
    ∀ e ∈ evs, ∃ f ∈ L, e.field = some f := by
  obtain ⟨blocks, hb, rfl⟩ := h
  induction hb with
  | nil => intro e he; simp at he
  | cons h1 _ ih =>
    intro e he
    simp only [List.flatten_cons, List.mem_append] at he
    rcases he with he | he
    · exact ⟨_, List.mem_cons_self _ _, chainBlock_field_eq h1 e he⟩
    · obtain ⟨f, hf, hfe⟩ := ih e he
      exact ⟨f, List.mem_cons_of_mem _ hf, hfe⟩

end Order

/-! ## Non-exported leaves during a walk -/

section Kept
variable {σ : Type}

mutual
theorem walkedFields_unexportedKept (ps : List (Provider σ)) :
    ∀ (fs : List StructField) (vs vs1 : List Val), hasTypeFields fs vs = true →
      WalkedFields ps fs vs vs1 → UnexportedKeptFields fs vs vs1
  | [], vs, vs1, _, h => by simpa [WalkedFields, UnexportedKeptFields] using h
  | _ :: _, [], _, ht, _ => by simp [hasTypeFields] at ht
  | _ :: _, _ :: _, [], _, h => by simp [WalkedFields] at h
  | f :: fs, v :: vs, v1 :: vs1, ht, h => by
    simp only [hasTypeFields, Bool.and_eq_true] at ht
    simp only [WalkedFields] at h
    simp only [UnexportedKeptFields]
    exact ⟨walkedField_unexportedKept ps f v v1 ht.1 h.1,
      walkedFields_unexportedKept ps fs vs vs1 ht.2 h.2⟩
theorem walkedField_unexportedKept (ps : List (Provider σ)) :
    ∀ (f : StructField) (v v1 : Val), hasTypeField f v = true →
      WalkedField ps f v v1 → UnexportedKeptField f v v1
  | .mk n p (.struct fs) g, v, v1, ht, h => by
    cases v with
    | struct vs =>
      cases v1 with
      | struct vs1 =>
        simp only [hasTypeField, hasType] at ht
        simp only [WalkedField] at h
        simp only [UnexportedKeptField]
        exact walkedFields_unexportedKept ps fs vs vs1 ht h
      | leaf d => simp [WalkedField] at h
      | nilPtr => simp [WalkedField] at h
      | ptrTo x => simp [WalkedField] at h
    | leaf d => simp [hasTypeField, hasType] at ht
    | nilPtr => simp [hasTypeField, hasType] at ht
    | ptrTo x => simp [hasTypeField, hasType] at ht
  | .mk n p (.ptr (.struct fs)) g, v, v1, _, h => by
    cases v1 with
    | ptrTo x =>
      cases x with
      | struct vs1 =>
        simp only [WalkedField] at h
        simp only [UnexportedKeptField]
        exact walkedFields_unexportedKept ps fs (zeroFields fs) vs1 (hasTypeFields_zero fs) h
      | leaf d => simp [WalkedField] at h
      | nilPtr => simp [WalkedField] at h
      | ptrTo y => simp [WalkedField] at h
    | leaf d => simp [WalkedField] at h
    | nilPtr => simp [WalkedField] at h
    | struct vs => simp [WalkedField] at h
  | .mk n p (.ptr (.basic b)) g, v, v1, _, h => by
    simp only [WalkedField] at h
    simpa [UnexportedKeptField] using h.1
  | .mk n p (.ptr (.ptr t)) g, v, v1, _, h => by
    simp only [WalkedField] at h
    simpa [UnexportedKeptField] using h.1
  | .mk n p (.basic b) g, v, v1, _, h => by
    simp only [WalkedField] at h
    simpa [UnexportedKeptField] using h.1
end

theorem exportedLeavesOfType_exported (t : GoType) :
    ∀ f ∈ exportedLeavesOfType t, f.IsExported = true := by
  intro f hf
  cases t with
  | struct fs =>
    simp only [exportedLeavesOfType, exportedLeaves, List.mem_filter] at hf
    exact hf.2
  | basic b => simp [exportedLeavesOfType] at hf
  | ptr t => simp [exportedLeavesOfType] at hf

/-- The events of a run of `InitValues`: `Init` calls, then the offering of eligible
leaves. -/
theorem InitValues_events (c : Configurator σ) (s : St σ) :
    ∃ inits evs L, (InitValues c s).st.trace = s.trace ++ inits ++ evs ∧
      (∀ e ∈ inits, e.isInit = true) ∧ OffersInOrder c.providers L evs ∧
      ∀ f ∈ L, f.IsExported = true := by
  have hidle : (InitValues c s).st.trace = s.trace →
      ∃ inits evs L, (InitValues c s).st.trace = s.trace ++ inits ++ evs ∧
        (∀ e ∈ inits, e.isInit = true) ∧ OffersInOrder c.providers L evs ∧
        ∀ f ∈ L, f.IsExported = true := fun h =>
    ⟨[], [], [], by simp [h], by simp, offersInOrder_nil _, by simp⟩
  cases hcfg : c.configPtr with
  | none => exact hidle (by simp [InitValues, hcfg, Outcome.st])
  | some tv =>
    obtain ⟨t, v⟩ := tv
    cases t with
    | basic b => exact hidle (by simp [InitValues, hcfg, GoType.Kind, Outcome.st])
    | struct fs => exact hidle (by simp [InitValues, hcfg, GoType.Kind, Outcome.st])
    | ptr t =>
      by_cases hne : c.providers = []
      · exact hidle (by simp [InitValues, hcfg, GoType.Kind, hne, Outcome.st])
      · rw [InitValues_ptr c s t v hcfg hne]
        rcases initLoop_cases c.configPtr c.providers c.registeredTags s with
          ⟨_, _, _, w1, hrun⟩ | ⟨pre, q, post, w1, _, _, _, hrun⟩ |
          ⟨pre, q, post, w1, e1, _, _, _, hrun⟩
        · rw [hrun]
          simp only [Outcome.st_map]
          obtain ⟨L, evs, htr, hoff, hpre, _⟩ := fillUp_offers
            { c with registeredTags := (c.providers.map Provider.Name).reverse ++ c.registeredTags }
            t v.Elem ⟨w1, s.trace ++ initCalls c.providers⟩
          exact ⟨initCalls c.providers, evs, L, htr, initCalls_isInit _, hoff,
            fun f hf => exportedLeavesOfType_exported t f (hpre.subset hf)⟩
        · rw [hrun]
          exact ⟨initCalls pre, [], [], by simp [Outcome.st], initCalls_isInit _,
            offersInOrder_nil _, by simp⟩
        · rw [hrun]
          refine ⟨initCalls pre ++ [Event.init q.Name (some e1)], [], [], by simp [Outcome.st],
            ?_, offersInOrder_nil _, by simp⟩
          intro ev hev
          rcases List.mem_append.1 hev with h | h
          · exact initCalls_isInit pre ev h
          · simp at h; subst h; rfl

/-- A run of `InitValues` that returns an error leaves the target as it was. -/
theorem InitValues_error_keeps_target (c c1 : Configurator σ) (s s1 : St σ) (e : Err)
    (hrun : InitValues c s = .ok ⟨some e, c1⟩ s1) : c1.configPtr = c.configPtr := by
  cases hcfg : c.configPtr with
  | none => simp [InitValues, hcfg] at hrun
  | some tv =>
    obtain ⟨t, v⟩ := tv
    by_cases hk : t.Kind = .Ptr
    · by_cases hne : c.providers = []
      · simp only [InitValues, hcfg, hk, hne, List.length_nil, ne_eq, not_true_eq_false,
          if_false, if_true, Outcome.ok.injEq, Ret.mk.injEq] at hrun
        rw [← hrun.1.2, hcfg]
      · cases t with
        | basic b => simp [GoType.Kind] at hk
        | struct fs => simp [GoType.Kind] at hk
        | ptr t =>
          rw [InitValues_ptr c s t v hcfg hne] at hrun
          rcases hloop : initLoop c.configPtr c.providers c.registeredTags s with
            ⟨_ | e0, reg, s0⟩
          · rw [hloop] at hrun
            simp only at hrun
            obtain ⟨o, _, hret⟩ := Outcome.map_eq_ok hrun
            simp at hret
          · rw [hloop] at hrun
            simp only [Outcome.ok.injEq, Ret.mk.injEq] at hrun
            rw [← hrun.1.2, ← hcfg]
    · simp only [InitValues, hcfg, ne_eq, hk, not_false_eq_true, if_true, Outcome.ok.injEq,
        Ret.mk.injEq] at hrun
      rw [← hrun.1.2, hcfg]

/-- The storage of the target after a run of `InitValues` that returned nil. -/
theorem InitValues_walked (c c1 : Configurator σ) (s s1 : St σ) (fs : List StructField)
    (vs : List Val) (hcfg : c.configPtr = some (.ptr (.struct fs), .ptrTo (.struct vs)))
    (hrun : InitValues c s = .ok ⟨none, c1⟩ s1) :
    ∃ vs1, c1.configPtr = some (.ptr (.struct fs), .ptrTo (.struct vs1)) ∧
      WalkedFields c.providers fs vs vs1 := by
  by_cases hne : c.providers = []
  · simp [InitValues, hcfg, GoType.Kind, hne] at hrun
  · rw [InitValues_ptr c s _ _ hcfg hne] at hrun
    rcases hloop : initLoop c.configPtr c.providers c.registeredTags s with ⟨_ | e, reg, s0⟩
    · rw [hloop] at hrun
      simp only at hrun
      obtain ⟨o, hfill, hret⟩ := Outcome.map_eq_ok hrun
      simp only [fillUp, Val.Elem] at hfill
      obtain ⟨vs1, hfields, rfl⟩ := Outcome.map_eq_ok hfill
      refine ⟨vs1, ?_, fillFields_walked { c with registeredTags := reg } fs vs s0 vs1 s1 hfields⟩
      injection hret with _ hc
      rw [← hc]
      rfl
    · rw [hloop] at hrun
      simp at hrun

/-- Claim C11, refuted as stated. `Vault` points to an instance whose non-exported leaf
`secret` holds `s3cr3t`; no provider is offered `secret`, and yet after the pass `secret`
is the empty string: it is the leaf of a new instance. -/
theorem unexported_leaf_behind_pointer_is_reset :
    (InitValues (lenientConfigurator vaultTarget [silentProvider]) st0).val.cfg.configPtr =
      some (.ptr (.struct [vaultField]), .ptrTo (.struct [.ptrTo (.struct [.leaf ""])])) ∧
    (InitValues (lenientConfigurator vaultTarget [silentProvider]) st0).st.trace =
      [Event.init "Silent" none] := by
  exact ⟨rfl, rfl⟩

/-- Claim C11, amended. In every run of `InitValues`, every `Provide` call and every call
of the error handler is about an exported field. A run that returns an error leaves the
target as it was. And after a run that returns nil on a pointer to a well-typed struct
value, a non-exported leaf outside every pointer-to-struct field holds the value it had
before the run, while a non-exported leaf inside a pointer-to-struct field holds the zero
value of its type, whatever the field pointed to before: the walk has stored a new
instance there. -/
theorem unexported_leaves_never_offered (c : Configurator σ) (s : St σ) :
    (∃ evs, (InitValues c s).st.trace = s.trace ++ evs ∧
      ∀ e ∈ evs, ∀ f, e.field = some f → f.IsExported = true) ∧
    (∀ e c1 s1, InitValues c s = .ok ⟨some e, c1⟩ s1 → c1.configPtr = c.configPtr) ∧
    (∀ fs vs c1 s1, c.configPtr = some (.ptr (.struct fs), .ptrTo (.struct vs)) →
      hasTypeFields fs vs = true → InitValues c s = .ok ⟨none, c1⟩ s1 →
      ∃ vs1, c1.configPtr = some (.ptr (.struct fs), .ptrTo (.struct vs1)) ∧
        UnexportedKeptFields fs vs vs1) := by
  refine ⟨?_, fun e c1 s1 hrun => InitValues_error_keeps_target c c1 s s1 e hrun, ?_⟩
  · obtain ⟨inits, evs, L, htr, hinit, hoff, hexp⟩ := InitValues_events c s
    refine ⟨inits ++ evs, by rw [htr, List.append_assoc], ?_⟩
    intro e he f hf
    rcases List.mem_append.1 he with h | h
    · have := hinit e h
      cases e <;> simp [Event.isInit, Event.field] at this hf
    · obtain ⟨g, hg, hge⟩ := offersInOrder_field_mem hoff e h
      rw [hge] at hf
      injection hf with hf
      subst hf
      exact hexp g hg
  · intro fs vs c1 s1 hcfg htyped hrun
    obtain ⟨vs1, hc1, hw⟩ := InitValues_walked c c1 s s1 fs vs hcfg hrun
    exact ⟨vs1, hc1, walkedFields_unexportedKept c.providers fs vs vs1 htyped hw⟩

/-- Witness of `unexported_leaves_never_offered`: on the target whose `Vault` points to
an instance with `secret` set, the run returns nil and `secret` is compared with the zero
value. -/
theorem unexported_leaves_never_offered_witness :
    ∃ vs1,
      ({ lenientConfigurator vaultTarget [silentProvider] with
          registeredTags := ["Silent"]
          configPtr := some (.ptr (.struct [vaultField]),
            .ptrTo (.struct [.ptrTo (.struct [.leaf ""])])) }
        : Configurator Unit).configPtr =
        some (.ptr (.struct [vaultField]), .ptrTo (.struct vs1)) ∧
      UnexportedKeptFields [vaultField] [.ptrTo (.struct [.leaf "s3cr3t"])] vs1 :=
  (unexported_leaves_never_offered (lenientConfigurator vaultTarget [silentProvider]) st0).2.2
    [vaultField] [.ptrTo (.struct [.leaf "s3cr3t"])] _ ⟨(), [Event.init "Silent" none]⟩
    rfl rfl rfl

end Kept

section Traversal
variable {σ : Type}

/-- Claim C12, evaluated where it fails. A target with a non-exported struct-typed field
and a target with a nil non-exported pointer-to-struct field: in both the walk panics in
`reflect` at that field, after the `Init` call and before `Host` is offered to any
provider. -/
theorem unexported_struct_field_panics :
    (InitValues (lenientConfigurator innerTarget [constProvider "Env" "example.com"])
        st0).aborted =
      some (.panic
        "reflect.Value.Interface: cannot return value obtained from unexported field or method") ∧
    (InitValues (lenientConfigurator innerTarget [constProvider "Env" "example.com"])
        st0).st.trace = [Event.init "Env" none] ∧
    (InitValues (lenientConfigurator linkTarget [constProvider "Env" "example.com"])
        st0).aborted =
      some (.panic "reflect: reflect.Value.Set using value obtained using unexported field") ∧
    (InitValues (lenientConfigurator linkTarget [constProvider "Env" "example.com"])
        st0).st.trace = [Event.init "Env" none] := by
  exact ⟨rfl, rfl, rfl, rfl⟩

/-- Claim C13, refuted as stated. With the handler of `New`, which does not return, and a
provider that has no value, the walk over `struct { Host string; Port int }` ends at the
unresolved `Host`: `Port`, the second eligible leaf of the flattening, is never offered
to the chain. -/
theorem halting_handler_cuts_traversal_short :
    (fillUp (New none [silentProvider]) (.struct [hostField, portField])
        (some (.struct [.leaf "", .leaf "0"])) st0).aborted = some .exit ∧
    (fillUp (New none [silentProvider]) (.struct [hostField, portField])
        (some (.struct [.leaf "", .leaf "0"])) st0).st.trace =
      [Event.provide "Silent" hostField (some "empty value"), Event.onError hostField] ∧
    exportedLeavesOfType (.struct [hostField, portField]) = [hostField, portField] := by
  exact ⟨rfl, rfl, rfl⟩

/-- Claim C13, amended. In every call of `fillUp` on a target of type `*t`, what the walk
adds to the trace is the offering to the chain, one leaf after the other and each leaf
once, of an initial segment `L` of the eligible leaves of `t` in their depth-first,
declaration order flattening (`exportedLeavesOfType`, struct-typed and pointer-to-struct
fields expanded where they are declared). When the call returns, `L` is the whole
flattening: every eligible leaf has been offered exactly once, in that order. -/
theorem leaves_offered_in_declaration_order (c : Configurator σ) (t : GoType)
    (v : Option Val) (s : St σ) :
    ∃ L evs, (fillUp c t v s).st.trace = s.trace ++ evs ∧
      OffersInOrder c.providers L evs ∧ L <+: exportedLeavesOfType t ∧
      ((fillUp c t v s).returned = true → L = exportedLeavesOfType t) := by
  obtain ⟨L, evs, htr, hoff, hpre, hall⟩ := fillUp_offers c t v s
  exact ⟨L, evs, htr, hoff, hpre, hall⟩

/-- Claim C18. `fillUp` is a total function on the finite field trees: every call ends,
by returning or by an abort. And the `Provide` calls it adds to the trace are at most the
number of exported leaf fields of the tree times the number of providers. -/
theorem provide_calls_bounded (c : Configurator σ) (t : GoType) (v : Option Val) (s : St σ) :
    ((∃ a s1, fillUp c t v s = .ok a s1) ∨ (∃ w a s1, fillUp c t v s = .abort w a s1)) ∧
    provideCount (fillUp c t v s).st.trace ≤
      provideCount s.trace + (exportedLeavesOfType t).length * c.providers.length := by
  constructor
  · cases h : fillUp c t v s with
    | ok a s1 => exact Or.inl ⟨a, s1, rfl⟩
    | abort w a s1 => exact Or.inr ⟨w, a, s1, rfl⟩
  · obtain ⟨L, evs, htr, hoff, hpre, _⟩ := fillUp_offers c t v s
    rw [htr, provideCount_append]
    have h1 := offersInOrder_provideCount_le hoff
    have h2 : L.length * c.providers.length ≤
        (exportedLeavesOfType t).length * c.providers.length :=
      Nat.mul_le_mul_right _ hpre.length_le
    omega

end Traversal

section Facade
variable {σ : Type}

/-- Claim C14. On a leaf field whose `default` tag is not empty, `Provide` of the default
provider returns exactly what `SetField` returns for the field, its storage and the tag
text, the world untouched. It returns nil if and only if the conversion of the tag text
to the declared type of the field succeeds, and then the storage holds the converted
value. When the conversion fails it returns an error and the storage is as it was: the
failure is not turned into a success with a zero value. -/
theorem default_provider_converts_or_fails (parse : Basic → String → Option String)
    (bare : Option String) (field : StructField)
    (htag : tagGet field.Tag "default" ≠ "") (v : Val) (w : σ) :
    (defaultProvider (SetField parse) bare : Provider σ).Provide field v w =
        ⟨(SetField parse field v (tagGet field.Tag "default")).1,
          (SetField parse field v (tagGet field.Tag "default")).2, w⟩ ∧
    (((defaultProvider (SetField parse) bare : Provider σ).Provide field v w).err = none ↔
      (convert parse field.Typ (tagGet field.Tag "default")).isSome = true) ∧
    (∀ x, convert parse field.Typ (tagGet field.Tag "default") = some x →
      (defaultProvider (SetField parse) bare : Provider σ).Provide field v w = ⟨none, x, w⟩) ∧
    (convert parse field.Typ (tagGet field.Tag "default") = none →
      ((defaultProvider (SetField parse) bare : Provider σ).Provide field v w).err ≠ none ∧
      ((defaultProvider (SetField parse) bare : Provider σ).Provide field v w).val = v) := by
  have hlen : ¬ (tagGet field.Tag "default").length = 0 := by
    intro h
    apply htag
    rcases hstr : tagGet field.Tag "default" with ⟨data⟩
    rw [hstr] at h
    have hdata : data = [] := List.length_eq_zero.1 h
    subst hdata
    rfl
  have h : (defaultProvider (SetField parse) bare : Provider σ).Provide field v w =
      ⟨(SetField parse field v (tagGet field.Tag "default")).1,
        (SetField parse field v (tagGet field.Tag "default")).2, w⟩ := by
    simp [defaultProvider, hlen]
  refine ⟨h, ?_, ?_, ?_⟩
  · rw [h]
    cases hc : convert parse field.Typ (tagGet field.Tag "default") <;> simp [SetField, hc]
  · intro x hx
    rw [h]
    simp [SetField, hx]
  · intro hc
    rw [h]
    simp [SetField, hc]

/-- Witness of `default_provider_converts_or_fails`: the default `notanumber` of `Port`
cannot be converted to an integer, so the default provider returns the error and leaves
the storage `7` as it was; the default `8080` is converted and stored. -/
theorem default_provider_converts_or_fails_witness :
    (defaultProvider (SetField decimalParse) none : Provider Unit).Provide portField
        (.leaf "7") () =
      ⟨some "cannot set field [Port] from value [notanumber]", .leaf "7", ()⟩ ∧
    (defaultProvider (SetField decimalParse) none : Provider Unit).Provide portField8080
        (.leaf "7") () = ⟨none, .leaf "8080", ()⟩ :=
  ⟨(default_provider_converts_or_fails decimalParse none portField (by decide)
      (.leaf "7") ()).1,
    (default_provider_converts_or_fails decimalParse none portField8080 (by decide)
      (.leaf "7") ()).2.2.1 (.leaf "8080") rfl⟩

/-- Claim C16. With a pointer target and an empty provider list `InitValues` returns
`ErrNoProviders` at once: the configurator, its target included, and the run state are as
they were, so nothing was called and nothing was traversed. -/
theorem no_providers_rejected (c : Configurator σ) (s : St σ) (t : GoType) (v : Val)
    (hcfg : c.configPtr = some (.ptr t, v)) (hps : c.providers = []) :
    InitValues c s = .ok ⟨some .ErrNoProviders, c⟩ s := by
  unfold InitValues
  rw [hcfg]
  simp [GoType.Kind, hps]

/-- Witness of `no_providers_rejected`: `New` with no provider on a pointer target. -/
theorem no_providers_rejected_witness :
    InitValues (New hostTarget ([] : List (Provider Unit))) st0 =
      .ok ⟨some .ErrNoProviders, New hostTarget []⟩ st0 :=
  no_providers_rejected (New hostTarget []) st0 (.struct [hostField])
    (.ptrTo (.struct [.leaf ""])) rfl rfl

theorem initLoop_reg_mono (target : Iface) (ps : List (Provider σ)) :
    ∀ (reg : List String) (s : St σ) (n : String),
      n ∈ reg → n ∈ (initLoop target ps reg s).2.1 := by
  induction ps with
  | nil => intro reg s n h; simpa [initLoop] using h
  | cons p ps ih =>
    intro reg s n h
    unfold initLoop
    by_cases hmem : p.Name ∈ reg
    · simpa [hmem] using h
    · simp only [hmem, if_false]
      cases hinit : (p.Init target s.world).err with
      | some e => simp [h]
      | none => exact ih _ _ n (List.mem_cons_of_mem _ h)

theorem initLoop_registers_head (target : Iface) (p : Provider σ) (ps : List (Provider σ))
    (reg : List String) (s : St σ) : p.Name ∈ (initLoop target (p :: ps) reg s).2.1 := by
  unfold initLoop
  by_cases hmem : p.Name ∈ reg
  · simp [hmem]
  · simp only [hmem, if_false]
    cases hinit : (p.Init target s.world).err with
    | some e => simp
    | none => exact initLoop_reg_mono target ps _ _ p.Name (List.mem_cons_self _ _)

/-- Claim C17. Let `InitValues` have been called once on a configurator with a pointer
target and at least one provider, so that the call got past the provider-count check,
and let `c1` be the configurator as that call left it, however the call ended. Then every
later call of `InitValues` on `c1`, from any state, returns `ErrProviderNameCollision`
at the first provider: the run state is untouched, so no `Init` and no `Provide` is
called, and the configurator with its target is untouched, so the same holds for the call
after that one. Nothing is assumed about the provider names. -/
theorem registry_outlives_pass (c : Configurator σ) (s : St σ) (t : GoType) (v : Val)
    (hcfg : c.configPtr = some (.ptr t, v)) (hne : c.providers ≠ []) (s2 : St σ) :
    InitValues (InitValues c s).val.cfg s2 =
      .ok ⟨some .ErrProviderNameCollision, (InitValues c s).val.cfg⟩ s2 := by
  obtain ⟨p, ps, hps⟩ := List.exists_cons_of_ne_nil hne
  have hhead := initLoop_registers_head c.configPtr p ps c.registeredTags s
  rw [← hps] at hhead
  have key : ∀ c1 : Configurator σ, (∃ v1, c1.configPtr = some (.ptr t, v1)) →
      c1.providers = c.providers → p.Name ∈ c1.registeredTags →
      InitValues c1 s2 = .ok ⟨some .ErrProviderNameCollision, c1⟩ s2 := by
    intro c1 ⟨v1, h1⟩ h2 h3
    have hne1 : c1.providers ≠ [] := by rw [h2]; exact hne
    have hloop : initLoop c1.configPtr c1.providers c1.registeredTags s2 =
        (some .ErrProviderNameCollision, c1.registeredTags, s2) := by
      rw [h2, hps]
      simp [initLoop, h3]
    rw [InitValues_ptr c1 s2 t v1 h1 hne1, hloop]
  rw [InitValues_ptr c s t v hcfg hne]
  rcases hloop : initLoop c.configPtr c.providers c.registeredTags s with ⟨_ | e, reg, s1⟩
  · rw [hloop] at hhead
    simp only [Outcome.val_map]
    exact key _ ⟨_, rfl⟩ rfl hhead
  · rw [hloop] at hhead
    exact key _ ⟨v, hcfg⟩ rfl hhead

/-- Witness of `registry_outlives_pass`: a second pass over `Host` with the same,
distinctly named providers. -/
theorem registry_outlives_pass_witness :
    InitValues (InitValues (lenientConfigurator hostTarget
        [silentProvider, constProvider "Late" "example.com"]) st0).val.cfg st0 =
      .ok ⟨some .ErrProviderNameCollision, (InitValues (lenientConfigurator hostTarget
        [silentProvider, constProvider "Late" "example.com"]) st0).val.cfg⟩ st0 :=
  registry_outlives_pass
    (lenientConfigurator hostTarget [silentProvider, constProvider "Late" "example.com"]) st0
    (.struct [hostField]) (.ptrTo (.struct [.leaf ""])) rfl
    (by simp [lenientConfigurator, New]) st0

end Facade

section Unresolved
variable {σ : Type}

theorem applyProviders_returns (c : Configurator σ)
    (hh : ∀ e w, (c.onErrorFn e w).isSome = true) (f : StructField) (v : Val) (s : St σ) :
    (applyProviders c f v s).returned = true := by
  unfold applyProviders
  cases hexp : f.IsExported with
  | false => rfl
  | true =>
    rcases hrun : provideLoop f c.providers v s with ⟨b, v1, s1⟩
    cases b with
    | true => rfl
    | false =>
      obtain ⟨w, hw⟩ := Option.isSome_iff_exists.1 (hh (some (cannotBeSet f)) s1.world)
      simp [hw, Outcome.returned]

mutual
theorem fillFields_returns (c : Configurator σ)
    (hh : ∀ e w, (c.onErrorFn e w).isSome = true) :
    ∀ (fs : List StructField) (vs : List Val) (s : St σ),
      walkableFields fs = true → hasTypeFields fs vs = true →
      (fillFields c fs vs s).returned = true
  | [], vs, s, _, _ => by simp [fillFields, Outcome.returned]
  | _ :: _, [], s, _, ht => by simp [hasTypeFields] at ht
  | f :: fs, v :: vs, s, hw, ht => by
    simp only [walkableFields, Bool.and_eq_true] at hw
    simp only [hasTypeFields, Bool.and_eq_true] at ht
    unfold fillFields
    have h1 := fillField_returns c hh f v s hw.1 ht.1
    cases hf : fillField c f v s with
    | abort w v1 s1 => rw [hf] at h1; simp [Outcome.returned] at h1
    | ok v1 s1 =>
      simp only [Outcome.returned_map]
      exact fillFields_returns c hh fs vs s1 hw.2 ht.2
theorem fillField_returns (c : Configurator σ)
    (hh : ∀ e w, (c.onErrorFn e w).isSome = true) :
    ∀ (f : StructField) (v : Val) (s : St σ),
      walkableField f = true → hasTypeField f v = true →
      (fillField c f v s).returned = true
  | .mk n p (.struct fs) g, v, s, hw, ht => by
    simp only [walkableField, Bool.and_eq_true, beq_iff_eq] at hw
    obtain ⟨hp, hwf⟩ := hw
    subst hp
    cases v with
    | struct vs =>
      simp only [hasTypeField, hasType] at ht
      simp only [fillField, fillUp, Outcome.returned_map, beq_self_eq_true, if_true]
      exact fillFields_returns c hh fs vs s hwf ht
    | leaf d => simp [hasTypeField, hasType] at ht
    | nilPtr => simp [hasTypeField, hasType] at ht
    | ptrTo x => simp [hasTypeField, hasType] at ht
  | .mk n p (.ptr (.struct fs)) g, v, s, hw, _ => by
    simp only [walkableField, Bool.and_eq_true, beq_iff_eq] at hw
    obtain ⟨hp, hwf⟩ := hw
    subst hp
    simp only [fillField, fillUp, zero, Outcome.returned_map, beq_self_eq_true, if_true]
    exact fillFields_returns c hh fs (zeroFields fs) s hwf (hasTypeFields_zero fs)
  | .mk n p (.ptr (.basic b)) g, v, s, _, _ => by
    unfold fillField
    exact applyProviders_returns c hh _ v s
  | .mk n p (.ptr (.ptr t)) g, v, s, _, _ => by
    unfold fillField
    exact applyProviders_returns c hh _ v s
  | .mk n p (.basic b) g, v, s, _, _ => by
    unfold fillField
    exact applyProviders_returns c hh _ v s
end

/-- On a target all of whose struct-typed and pointer-to-struct fields are exported, a
pass with succeeding `Init` calls and a handler that returns comes back with nil whatever
the providers answer: after the `Init` calls every eligible leaf is offered once, and a
leaf that no provider settles costs one call of the handler and nothing else. -/
theorem walkable_pass_returns_nil (c : Configurator σ) (s : St σ)
    (fs : List StructField) (vs : List Val)
    (hcfg : c.configPtr = some (.ptr (.struct fs), .ptrTo (.struct vs)))
    (htyped : hasTypeFields fs vs = true) (hwalk : walkableFields fs = true)
    (hne : c.providers ≠ []) (hnd : (c.providers.map Provider.Name).Nodup)
    (hreg : ∀ p ∈ c.providers, p.Name ∉ c.registeredTags)
    (hok : InitsSucceed c.configPtr c.providers s.world)
    (hh : ∀ e w, (c.onErrorFn e w).isSome = true) :
    ∃ c1 s1 evs, InitValues c s = .ok ⟨none, c1⟩ s1 ∧
      s1.trace = s.trace ++ initCalls c.providers ++ evs ∧
      OffersInOrder c.providers (exportedLeaves fs) evs := by
  obtain ⟨w, hrun⟩ := initLoop_ok c.configPtr c.providers c.registeredTags s hnd hreg hok
  have hret := fillFields_returns
    { c with registeredTags := (c.providers.map Provider.Name).reverse ++ c.registeredTags }
    hh fs vs ⟨w, s.trace ++ initCalls c.providers⟩ hwalk htyped
  obtain ⟨L, evs, htr, hoff, _, hall⟩ := fillFields_offers
    { c with registeredTags := (c.providers.map Provider.Name).reverse ++ c.registeredTags }
    fs vs ⟨w, s.trace ++ initCalls c.providers⟩
  rw [InitValues_ptr c s _ _ hcfg hne, hrun]
  simp only [fillUp, Val.Elem]
  cases hf : fillFields
      { c with registeredTags := (c.providers.map Provider.Name).reverse ++ c.registeredTags }
      fs vs ⟨w, s.trace ++ initCalls c.providers⟩ with
  | abort w1 a s1 => rw [hf] at hret; simp [Outcome.returned] at hret
  | ok vs1 s1 =>
    rw [hf] at htr hall
    refine ⟨_, s1, evs, rfl, htr, ?_⟩
    rw [← hall rfl]
    exact hoff

/-- Claim C15, evaluated where it fails. The target is a pointer to a struct, the one
provider is named, its `Init` succeeds and the handler returns. `Host` is left
unresolved and reported to the handler; at the non-exported struct-typed field `inner`
the walk panics in `reflect`, so `InitValues` does not return nil: it does not return. -/
theorem unresolved_pass_panics_at_unexported_struct :
    (InitValues (lenientConfigurator hostInnerTarget [silentProvider]) st0).returned = false ∧
    (InitValues (lenientConfigurator hostInnerTarget [silentProvider]) st0).aborted =
      some (.panic
        "reflect.Value.Interface: cannot return value obtained from unexported field or method") ∧
    (InitValues (lenientConfigurator hostInnerTarget [silentProvider]) st0).st.trace =
      [Event.init "Silent" none, Event.provide "Silent" hostField (some "empty value"),
        Event.onError hostField] := by
  exact ⟨rfl, rfl, rfl⟩

end Unresolved

end Configuration
